import Mathlib

/-!
Verification of the `logieinc/virtualization-apis` developer-tooling bundle.

This file shallowly embeds the parts of the TypeScript sources that the
specification talks about:

* the Postgres "seed-yaml" interpreter (`buildInsertSql`, `toSqlValue`,
  `applySeedVariables`, `resolveSeedRef`, `applyYamlSeed`, ...),
* the mock-API server template engine and hot-reload logic
  (`applyTemplate`, `interpolateString`, `fingerprintResources`, ...),
* the OpenSearch bulk-payload normaliser (`normalizeBulkPayload`), and
* the parties reset command (`resetParties`).

JavaScript runtime values are modelled by the inductive type `JsVal`;
thrown exceptions are modelled with `Except`; `psql` subprocess calls are
collected into an explicit trace.  JS numbers are modelled as integers with
a separate constructor for the non-finite values (the seed files only
carry YAML scalars); `Date` values carry their `toISOString()` rendering.
-/

namespace VirtApis

/-- The single-quote character (written by code point to keep sources clean). -/
def squote : Char := Char.ofNat 39

/-- The double-quote character. -/
def dquote : Char := Char.ofNat 34

/-- JS `value.replace(/'/g, "''")` at the character level: every single
quote is doubled, all other characters are kept. -/
def escSingleQuotes : List Char → List Char
  | [] => []
  | c :: rest =>
    if c = squote then squote :: squote :: escSingleQuotes rest
    else c :: escSingleQuotes rest

/-- JS `value.replace(/"/g, '""')` at the character level. -/
def escDoubleQuotes : List Char → List Char
  | [] => []
  | c :: rest =>
    if c = dquote then dquote :: dquote :: escDoubleQuotes rest
    else c :: escDoubleQuotes rest

/-- Every single quote in the character list is immediately followed by a
second single quote that is consumed together with it; i.e. single quotes
only occur escaped (doubled). -/
def singleQuotesDoubled : List Char → Bool
  | [] => true
  | c :: rest =>
    if c = squote then
      match rest with
      | [] => false
      | c2 :: r2 => c2 = squote && singleQuotesDoubled r2
    else singleQuotesDoubled rest

/-- Double-quote analogue of `singleQuotesDoubled`. -/
def doubleQuotesDoubled : List Char → Bool
  | [] => true
  | c :: rest =>
    if c = dquote then
      match rest with
      | [] => false
      | c2 :: r2 => c2 = dquote && doubleQuotesDoubled r2
    else doubleQuotesDoubled rest

/-- Model of the JavaScript runtime values that flow through the tools:
`null` and `undefined`, finite numbers (as integers), non-finite numbers
(kept with their `String()` rendering), bigints, booleans, `Date`s (kept
with their `toISOString()` rendering), strings, arrays and plain objects
(ordered association lists, mirroring JS own-property order). -/
inductive JsVal where
  | null
  | undef
  | num (i : Int)
  | numNF (r : String)
  | bigint (i : Int)
  | bool (b : Bool)
  | date (iso : String)
  | str (s : String)
  | arr (elems : List JsVal)
  | obj (fields : List (String × JsVal))
deriving Repr, Inhabited, BEq

/-- JS property read `fields[key]` on a plain object: first binding wins,
missing keys give `undefined`. -/
def jsGet (fields : List (String × JsVal)) (key : String) : JsVal :=
  match fields.find? (fun p => p.1 == key) with
  | some p => p.2
  | none => JsVal.undef

/-- JS truthiness of a value. -/
def jsTruthy : JsVal → Bool
  | .null => false
  | .undef => false
  | .num i => i != 0
  | .numNF r => r != "NaN"
  | .bigint i => i != 0
  | .bool b => b
  | .str s => s != ""
  | .date _ => true
  | .arr _ => true
  | .obj _ => true

/-- Whether `typeof value === 'object'` holds (note: `null` qualifies). -/
def typeofObject : JsVal → Bool
  | .null => true
  | .date _ => true
  | .arr _ => true
  | .obj _ => true
  | _ => false

/-- Parse a non-empty all-digit character list. -/
def parseNatDigits (cs : List Char) : Option Nat :=
  if cs.isEmpty then none
  else if cs.all Char.isDigit then
    some (cs.foldl (fun n c => n * 10 + (c.toNat - 48)) 0)
  else none

/-- A canonical array-index string: `"7"` indexes an array, `"07"` does not. -/
def canonicalIndex? (s : String) : Option Nat :=
  match parseNatDigits s.data with
  | some n => if toString n = s then some n else none
  | none => none

/-- Property read `acc[key]` for values of object type (used after the
`typeof acc === 'object'` guard of `resolveVarByPath`). -/
def jsIndex : JsVal → String → JsVal
  | .obj fs, k => jsGet fs k
  | .arr xs, k =>
    if k = "length" then .num xs.length
    else
      match canonicalIndex? k with
      | some n => (xs.get? n).getD .undef
      | none => .undef
  | _, _ => JsVal.undef

/-- Hexadecimal digit for `\u00XX` escapes. -/
def hexDigit (n : Nat) : Char := Nat.digitChar n

/-- JSON string escaping of a single character, as produced by
`JSON.stringify`. -/
def jsonEscapeChar (c : Char) : List Char :=
  if c = dquote then ['\\', dquote]
  else if c = '\\' then ['\\', '\\']
  else if c = '\n' then ['\\', 'n']
  else if c = '\r' then ['\\', 'r']
  else if c = '\t' then ['\\', 't']
  else if c = Char.ofNat 8 then ['\\', 'b']
  else if c = Char.ofNat 12 then ['\\', 'f']
  else if c.toNat < 32 then
    ['\\', 'u', '0', '0', hexDigit (c.toNat / 16), hexDigit (c.toNat % 16)]
  else [c]

/-- `JSON.stringify` rendering of a string (including the delimiters). -/
def jsonQuote (s : String) : String :=
  String.mk (dquote :: (s.data.map jsonEscapeChar).flatten ++ [dquote])

/- `jsonStr` is `JSON.stringify`.  `Except.error` models the `TypeError`
thrown on bigints; an `Except.ok none` is a value that stringifies to
nothing (`undefined`), which becomes `null` inside arrays and is dropped
inside objects. -/
mutual

def jsonStr : JsVal → Except Unit (Option String)
  | .null => .ok (some "null")
  | .undef => .ok none
  | .num i => .ok (some (toString i))
  | .numNF _ => .ok (some "null")
  | .bigint _ => .error ()
  | .bool b => .ok (some (if b then "true" else "false"))
  | .str s => .ok (some (jsonQuote s))
  | .date iso => .ok (some (jsonQuote iso))
  | .arr xs =>
    match jsonStrList xs with
    | .error e => .error e
    | .ok parts =>
      .ok (some ("[" ++ String.intercalate "," (parts.map (fun p => p.getD "null")) ++ "]"))
  | .obj fs =>
    match jsonStrFields fs with
    | .error e => .error e
    | .ok parts =>
      let kept := parts.filterMap (fun p => p.2.map (fun v => jsonQuote p.1 ++ ":" ++ v))
      .ok (some ("\x7b" ++ String.intercalate "," kept ++ "\x7d"))

def jsonStrList : List JsVal → Except Unit (List (Option String))
  | [] => .ok []
  | x :: rest =>
    match jsonStr x with
    | .error e => .error e
    | .ok p =>
      match jsonStrList rest with
      | .error e => .error e
      | .ok ps => .ok (p :: ps)

def jsonStrFields : List (String × JsVal) → Except Unit (List (String × Option String))
  | [] => .ok []
  | kv :: rest =>
    match jsonStr kv.2 with
    | .error e => .error e
    | .ok p =>
      match jsonStrFields rest with
      | .error e => .error e
      | .ok ps => .ok ((kv.1, p) :: ps)

end

/-- `quoteIdentifier` from the seed-yaml subsystem: wrap in double quotes,
doubling every double quote of the identifier. -/
def quoteIdentifier (value : String) : String :=
  String.mk (dquote :: (escDoubleQuotes value.data ++ [dquote]))

/-- Helper for the object/array branch of `toSqlValue`: JSON-serialise and
wrap as an escaped `::jsonb` literal. -/
def sqlJsonLiteral (v : JsVal) : Except String String :=
  match jsonStr v with
  | .ok (some j) => .ok ("\x27" ++ String.mk (escSingleQuotes j.data) ++ "\x27::jsonb")
  | _ => .error "TypeError: JSON.stringify"

/-- `toSqlValue` from the seed-yaml subsystem.  Branches follow the source
order: null/undefined, number (finite check), bigint, boolean, `Date`,
object (single-key `sql` escape hatch, else JSON), and the string
fallback. -/
def toSqlValue : JsVal → Except String String
  | .null => .ok "NULL"
  | .undef => .ok "NULL"
  | .num i => .ok (toString i)
  | .numNF _ => .error "Invalid number value in seed YAML."
  | .bigint i => .ok (toString i)
  | .bool b => .ok (if b then "TRUE" else "FALSE")
  | .date iso => .ok ("\x27" ++ String.mk (escSingleQuotes iso.data) ++ "\x27")
  | .arr xs => sqlJsonLiteral (.arr xs)
  | .obj fs =>
    match fs with
    | [(k, JsVal.str s)] => if k = "sql" then .ok s else sqlJsonLiteral (.obj fs)
    | _ => sqlJsonLiteral (.obj fs)
  | .str s => .ok ("\x27" ++ String.mk (escSingleQuotes s.data) ++ "\x27")

/-- `buildInsertSql` from the seed-yaml subsystem. -/
def buildInsertSql (table : String) (row : List (String × JsVal))
    (upsertBy : Option (List String)) : Except String String :=
  let columns := row.map Prod.fst
  if columns.isEmpty then
    .error ("Seed row for table \x22" ++ table ++ "\x22 has no columns.")
  else
    let columnSql := String.intercalate ", " (columns.map quoteIdentifier)
    match columns.mapM (fun col => toSqlValue (jsGet row col)) with
    | .error e => .error e
    | .ok vals =>
      let valuesSql := String.intercalate ", " vals
      let sql := "INSERT INTO " ++ quoteIdentifier table ++
        " (" ++ columnSql ++ ") VALUES (" ++ valuesSql ++ ")"
      match upsertBy with
      | none => .ok (sql ++ ";")
      | some ub =>
        if ub.isEmpty then .ok (sql ++ ";")
        else
          let conflictCols := String.intercalate ", " (ub.map quoteIdentifier)
          let updateCols := columns.filter (fun col => ¬ ub.contains col)
          if updateCols.isEmpty then
            .ok (sql ++ " ON CONFLICT (" ++ conflictCols ++ ") DO NOTHING;")
          else
            let updateSql := String.intercalate ", " (updateCols.map (fun col =>
              quoteIdentifier col ++ " = EXCLUDED." ++ quoteIdentifier col))
            .ok (sql ++ " ON CONFLICT (" ++ conflictCols ++ ") DO UPDATE SET " ++ updateSql ++ ";")

/-- `buildWhereSql` from the seed-yaml subsystem (null maps to `IS NULL`,
everything else to an equality). -/
def buildWhereSql (table : String) (whereFields : List (String × JsVal)) :
    Except String String :=
  if whereFields.isEmpty then
    .error ("Operation on table \x22" ++ table ++ "\x22 requires a non-empty \x22where\x22 clause.")
  else
    match whereFields.mapM (fun fv =>
        (match fv.2 with
         | JsVal.null => Except.ok (quoteIdentifier fv.1 ++ " IS NULL")
         | v =>
           match toSqlValue v with
           | .error e => .error e
           | .ok sv => .ok (quoteIdentifier fv.1 ++ " = " ++ sv) :
           Except String String)) with
    | .error e => .error e
    | .ok preds => .ok (String.intercalate " AND " preds)

/-- `buildUpdateSql` from the seed-yaml subsystem.  The `SET` list is
rendered before the `WHERE` clause, as in the source. -/
def buildUpdateSql (table : String) (setFields whereFields : List (String × JsVal)) :
    Except String String :=
  if setFields.isEmpty then
    .error ("Update operation for \x22" ++ table ++ "\x22 requires a non-empty \x22set\x22 object.")
  else
    match setFields.mapM (fun cv =>
        (match toSqlValue cv.2 with
         | .error e => .error e
         | .ok sv => .ok (quoteIdentifier cv.1 ++ " = " ++ sv) :
         Except String String)) with
    | .error e => .error e
    | .ok setParts =>
      match buildWhereSql table whereFields with
      | .error e => .error e
      | .ok whereSql =>
        .ok ("UPDATE " ++ quoteIdentifier table ++ " SET " ++
          String.intercalate ", " setParts ++ " WHERE " ++ whereSql ++ ";")

/-- `buildDeleteSql` from the seed-yaml subsystem. -/
def buildDeleteSql (table : String) (whereFields : List (String × JsVal)) :
    Except String String :=
  match buildWhereSql table whereFields with
  | .error e => .error e
  | .ok whereSql =>
    .ok ("DELETE FROM " ++ quoteIdentifier table ++ " WHERE " ++ whereSql ++ ";")

/- `jsToString` is the JS `String()` conversion: arrays render via
`Array.prototype.join(",")`, with `null`/`undefined` elements rendered as
empty; plain objects render as `[object Object]`.  A `Date` is abstracted
to its stored rendering. -/
mutual

def jsToString : JsVal → String
  | .null => "null"
  | .undef => "undefined"
  | .num i => toString i
  | .numNF r => r
  | .bigint i => toString i
  | .bool b => if b then "true" else "false"
  | .str s => s
  | .date iso => iso
  | .arr xs => String.intercalate "," (jsToStringElems xs)
  | .obj _ => "[object Object]"

def jsToStringElems : List JsVal → List String
  | [] => []
  | JsVal.null :: rest => "" :: jsToStringElems rest
  | JsVal.undef :: rest => "" :: jsToStringElems rest
  | v :: rest => jsToString v :: jsToStringElems rest

end

/-- Whitespace class of the JS regexes (`\s`); the rare non-ASCII space
code points are not modelled. -/
def isWsChar (c : Char) : Bool :=
  c = ' ' || c = '\t' || c = '\n' || c = '\r' || c = Char.ofNat 11 || c = Char.ofNat 12

/-- Character class `[a-zA-Z0-9_.-]` of the seed placeholder regexes. -/
def isVarChar (c : Char) : Bool :=
  c.isAlphanum || c = '_' || c = '.' || c = '-'

/-- JS `String.prototype.split` with a single-character separator
(both call sites split on a single character). -/
def splitCharAux (sep : Char) : List Char → List Char → List String
  | [], acc => [String.mk acc.reverse]
  | c :: rest, acc =>
    if c = sep then String.mk acc.reverse :: splitCharAux sep rest []
    else splitCharAux sep rest (c :: acc)

def splitChar (sep : Char) (s : String) : List String := splitCharAux sep s.data []

/-- JS `String.prototype.trim` (over the modelled whitespace set). -/
def jsTrim (s : String) : String :=
  String.mk (((s.data.dropWhile isWsChar).reverse.dropWhile isWsChar).reverse)

/-- JS `String.prototype.endsWith`. -/
def strEndsWith (s suffix : String) : Bool :=
  decide (suffix.data.length ≤ s.data.length) &&
    (s.data.drop (s.data.length - suffix.data.length) == suffix.data)

/-- JS `String.prototype.toLowerCase` (ASCII). -/
def jsToLower (s : String) : String := String.mk (s.data.map Char.toLower)

/-- Lexicographic comparison by character ordinal (the default
`Array.prototype.sort` string comparison). -/
def charListLe : List Char → List Char → Bool
  | [], _ => true
  | _ :: _, [] => false
  | a :: as, b :: bs =>
    if a.toNat < b.toNat then true
    else if b.toNat < a.toNat then false
    else charListLe as bs

def strLeB (a b : String) : Bool := charListLe a.data b.data

/-- Strip an expected literal character sequence from the front. -/
def stripLit : List Char → List Char → Option (List Char)
  | [], cs => some cs
  | _ :: _, [] => none
  | p :: ps, c :: cs => if c = p then stripLit ps cs else none

theorem stripLit_length {pre cs rest : List Char} (h : stripLit pre cs = some rest) :
    rest.length + pre.length = cs.length := by
  induction pre generalizing cs with
  | nil =>
    simp only [stripLit, Option.some.injEq] at h
    subst h; simp
  | cons p ps ih =>
    cases cs with
    | nil => simp [stripLit] at h
    | cons c cs' =>
      simp only [stripLit] at h
      split at h
      · have := ih h
        simp only [List.length_cons]
        omega
      · exact absurd h (by simp)

theorem lenDropWhileLe {α : Type} (p : α → Bool) (l : List α) :
    (l.dropWhile p).length ≤ l.length := by
  induction l with
  | nil => simp [List.dropWhile]
  | cons c rest ih =>
    simp only [List.dropWhile]
    split
    · exact Nat.le_succ_of_le ih
    · simp

/-- Match the global seed regex `{{\s*vars\.([a-zA-Z0-9_.-]+)\s*}}` at the
head of the character list; on success return the captured key and the
remainder after the match.  The pattern is deterministic: the whitespace
star, the literal `vars.`, and the greedy character class cannot trade
characters with one another. -/
def matchHB (cs : List Char) : Option (String × List Char) :=
  match stripLit ['{', '{'] cs with
  | none => none
  | some r0 =>
    match stripLit ['v', 'a', 'r', 's', '.'] (r0.dropWhile isWsChar) with
    | none => none
    | some r2 =>
      if (r2.takeWhile isVarChar).isEmpty then none
      else
        match stripLit ['}', '}'] ((r2.dropWhile isVarChar).dropWhile isWsChar) with
        | none => none
        | some rem => some (String.mk (r2.takeWhile isVarChar), rem)

/-- Match the legacy regex `\$\{([a-zA-Z0-9_.-]+)\}` at the head. -/
def matchLegacy (cs : List Char) : Option (String × List Char) :=
  match stripLit ['$', '{'] cs with
  | none => none
  | some r0 =>
    if (r0.takeWhile isVarChar).isEmpty then none
    else
      match stripLit ['}'] (r0.dropWhile isVarChar) with
      | none => none
      | some rem => some (String.mk (r0.takeWhile isVarChar), rem)

theorem matchHB_length {cs : List Char} {kr : String × List Char}
    (h : matchHB cs = some kr) : kr.2.length < cs.length := by
  unfold matchHB at h
  split at h
  · exact absurd h (by simp)
  case h_2 r0 h0 =>
    split at h
    · exact absurd h (by simp)
    case h_2 r2 h2 =>
      split at h
      · exact absurd h (by simp)
      · split at h
        · exact absurd h (by simp)
        case h_2 rem h3 =>
          cases h
          show rem.length < cs.length
          have l0 := stripLit_length h0
          have l2 := stripLit_length h2
          have l3 := stripLit_length h3
          have d0 : (r0.dropWhile isWsChar).length ≤ r0.length :=
            lenDropWhileLe isWsChar r0
          have d2 : (r2.dropWhile isVarChar).length ≤ r2.length :=
            lenDropWhileLe isVarChar r2
          have d3 : ((r2.dropWhile isVarChar).dropWhile isWsChar).length ≤
              (r2.dropWhile isVarChar).length :=
            lenDropWhileLe isWsChar (r2.dropWhile isVarChar)
          simp only [List.length_cons, List.length_nil] at l0 l2 l3
          omega

theorem matchLegacy_length {cs : List Char} {kr : String × List Char}
    (h : matchLegacy cs = some kr) : kr.2.length < cs.length := by
  unfold matchLegacy at h
  split at h
  · exact absurd h (by simp)
  case h_2 r0 h0 =>
    split at h
    · exact absurd h (by simp)
    · split at h
      · exact absurd h (by simp)
      case h_2 rem h1 =>
        cases h
        show rem.length < cs.length
        have l0 := stripLit_length h0
        have l1 := stripLit_length h1
        have d0 : (r0.dropWhile isVarChar).length ≤ r0.length :=
          lenDropWhileLe isVarChar r0
        simp only [List.length_cons, List.length_nil] at l0 l1
        omega

/-- `resolveVarByPath`: split the key path on dots and walk the variable
object; any non-object (or falsy) intermediate yields `undefined`. -/
def resolveVarByPath (vars : List (String × JsVal)) (keyPath : String) : JsVal :=
  (splitChar '.' keyPath).foldl
    (fun acc key => if jsTruthy acc && typeofObject acc then jsIndex acc key else .undef)
    (.obj vars)

/-- Rendering of an embedded placeholder occurrence:
`resolved !== undefined ? String(resolved) : ''`. -/
def renderSeedVar (vars : List (String × JsVal)) (key : String) : String :=
  match resolveVarByPath vars key with
  | .undef => ""
  | v => jsToString v

/-- The global `replace` pass for `{{ vars.KEY }}` placeholders: scan left
to right, replacing each match by `renderSeedVar` and copying every other
character. -/
def scanHB (vars : List (String × JsVal)) (cs : List Char) : List Char :=
  match h : matchHB cs with
  | some kr => (renderSeedVar vars kr.1).data ++ scanHB vars kr.2
  | none =>
    match cs with
    | [] => []
    | c :: rest => c :: scanHB vars rest
termination_by cs.length
decreasing_by
· exact matchHB_length h
· simp

/-- The global `replace` pass for `${KEY}` placeholders. -/
def scanLegacy (vars : List (String × JsVal)) (cs : List Char) : List Char :=
  match h : matchLegacy cs with
  | some kr => (renderSeedVar vars kr.1).data ++ scanLegacy vars kr.2
  | none =>
    match cs with
    | [] => []
    | c :: rest => c :: scanLegacy vars rest
termination_by cs.length
decreasing_by
· exact matchLegacy_length h
· simp

/-- The anchored regex `^{{\s*vars\.([a-zA-Z0-9_.-]+)\s*}}$`: a whole-string
match of the placeholder. -/
def parseExactHB (s : String) : Option String :=
  match matchHB s.data with
  | some (key, []) => some key
  | _ => none

/-- The anchored regex `^\$\{([a-zA-Z0-9_.-]+)\}$`. -/
def parseExactLegacy (s : String) : Option String :=
  match matchLegacy s.data with
  | some (key, []) => some key
  | _ => none

/-- Exact-placeholder substitution: the variable with its original type,
or the empty string when it is undefined. -/
def exactSubst (vars : List (String × JsVal)) (key : String) : JsVal :=
  match resolveVarByPath vars key with
  | .undef => .str ""
  | v => v

/- `applySeedVariables` from the seed-yaml subsystem: strings are
interpolated (whole-string placeholders keep the variable's type; embedded
ones are stringified), arrays and objects are mapped recursively (object
keys are untouched), all other values pass through. -/
mutual

def applySeedVariables (value : JsVal) (vars : List (String × JsVal)) : JsVal :=
  match value with
  | .str s =>
    match parseExactHB s with
    | some key => exactSubst vars key
    | none =>
      match parseExactLegacy s with
      | some key => exactSubst vars key
      | none => .str (String.mk (scanLegacy vars (scanHB vars s.data)))
  | .arr xs => .arr (applySeedVariablesList xs vars)
  | .obj fs => .obj (applySeedVariablesFields fs vars)
  | v => v

def applySeedVariablesList (xs : List JsVal) (vars : List (String × JsVal)) :
    List JsVal :=
  match xs with
  | [] => []
  | x :: rest => applySeedVariables x vars :: applySeedVariablesList rest vars

def applySeedVariablesFields (fs : List (String × JsVal))
    (vars : List (String × JsVal)) : List (String × JsVal) :=
  match fs with
  | [] => []
  | kv :: rest =>
    (kv.1, applySeedVariables kv.2 vars) :: applySeedVariablesFields rest vars

end

/-- General JS property read `value[key]`, additionally covering strings
(`length` and character indexing); `null`/`undefined` receivers give
`undefined`, matching the optional-chaining / guarded uses in the source. -/
def jsIndexAny : JsVal → String → JsVal
  | .str s, k =>
    if k = "length" then .num s.length
    else
      match canonicalIndex? k with
      | some n =>
        match s.data.get? n with
        | some c => .str (String.mk [c])
        | none => .undef
      | none => .undef
  | v, k => jsIndex v k

/-- First-defined choice, JS `a ?? b` on optionals. -/
def oo {α : Type} : Option α → Option α → Option α
  | some a, _ => some a
  | none, b => b

/-- JS `a || b` for an optional string: empty strings fall through. -/
def jsOrStr : Option String → String → String
  | some s, d => if s = "" then d else s
  | none, d => d

/-- The resolved environment configuration for one Postgres target
(`config.env.postgres` or one entry of `config.env.databases`). -/
structure PgTargetCfg where
  mode : Option String := none
  service : Option String := none
  user : Option String := none
  password : Option String := none
  host : Option String := none
  port : Option Int := none
  adminDb : Option String := none
  composeDir : Option String := none
  ssl : Option Bool := none
deriving Repr, DecidableEq

/-- The parts of `resolveEnvironment()` that `resolvePostgresRuntime`
reads (`config.env?.postgres` and `config.env?.databases`); an absent
`env` is the record with no postgres config and no database targets. -/
structure EnvConfig where
  postgres : Option PgTargetCfg := none
  databases : List (String × PgTargetCfg) := []
deriving Repr, DecidableEq

/-- The `process.env` variables consulted by `resolvePostgresRuntime`.
The two port variables are stored already `Number()`-converted; an unset
or empty variable is `none`. -/
structure ProcessEnv where
  pgMode : Option String := none
  postgresMode : Option String := none
  postgresService : Option String := none
  postgresUser : Option String := none
  postgresPassword : Option String := none
  pgPassword : Option String := none
  postgresHost : Option String := none
  pgHost : Option String := none
  postgresPort : Option Int := none
  pgPort : Option Int := none
  postgresAdminDb : Option String := none
  postgresSsl : Option String := none
  composeDir : Option String := none
deriving Repr, DecidableEq

/-- The option bag accepted by `resolvePostgresRuntime`. -/
structure ResolveOptions where
  service : Option String := none
  user : Option String := none
  composeDir : Option String := none
  target : Option String := none
  adminDb : Option String := none
deriving Repr, DecidableEq

/-- The resolved Postgres runtime. -/
structure PostgresRuntime where
  mode : String
  service : String
  user : String
  password : Option String := none
  host : Option String := none
  port : Int
  adminDb : String
  composeDir : String
  ssl : Option Bool := none
deriving Repr, DecidableEq

/-- The compiled-in fallback for `COMPOSE_DIR`
(`path.resolve(__dirname, '..', '..', '..')`); the concrete path depends
on the installation prefix and is kept symbolic. -/
def composeDirDefaultPath : String := "__dirname/../../.."

/-- `resolvePostgresRuntime` from the seed-yaml subsystem: each field is
the first defined value along the chain
options / database-target config / postgres config / process env /
hard default. -/
def resolvePostgresRuntime (env : EnvConfig) (penv : ProcessEnv)
    (options : ResolveOptions) (fallbackTarget : Option String) : PostgresRuntime :=
  let targetName := oo options.target fallbackTarget
  let dbTarget : Option PgTargetCfg :=
    targetName.bind (fun t => (env.databases.find? (fun p => p.1 == t)).map Prod.snd)
  let cfg := env.postgres
  let mode := (oo (dbTarget.bind PgTargetCfg.mode) (oo (cfg.bind PgTargetCfg.mode)
    (oo penv.pgMode penv.postgresMode))).getD "compose"
  let service := (oo options.service (oo (dbTarget.bind PgTargetCfg.service)
    (oo (cfg.bind PgTargetCfg.service) penv.postgresService))).getD "postgres"
  let user := (oo options.user (oo (dbTarget.bind PgTargetCfg.user)
    (oo (cfg.bind PgTargetCfg.user) penv.postgresUser))).getD "postgres"
  let password := oo (dbTarget.bind PgTargetCfg.password) (oo (cfg.bind PgTargetCfg.password)
    (oo penv.postgresPassword penv.pgPassword))
  let host := oo (dbTarget.bind PgTargetCfg.host) (oo (cfg.bind PgTargetCfg.host)
    (oo penv.postgresHost penv.pgHost))
  let port := (oo (dbTarget.bind PgTargetCfg.port) (oo (cfg.bind PgTargetCfg.port)
    (oo penv.postgresPort penv.pgPort))).getD 5432
  let adminDb := (oo options.adminDb (oo (dbTarget.bind PgTargetCfg.adminDb)
    (oo (cfg.bind PgTargetCfg.adminDb) penv.postgresAdminDb))).getD "postgres"
  let composeDir := (oo options.composeDir (oo (dbTarget.bind PgTargetCfg.composeDir)
    (cfg.bind PgTargetCfg.composeDir))).getD (jsOrStr penv.composeDir composeDirDefaultPath)
  let ssl := oo (dbTarget.bind PgTargetCfg.ssl) (oo (cfg.bind PgTargetCfg.ssl)
    ((penv.postgresSsl.filter (fun s => s != "")).map (fun s => jsToLower s = "true")))
  { mode := if mode = "direct" then "direct" else "compose"
    service := service
    user := user
    password := password
    host := host
    port := port
    adminDb := adminDb
    composeDir := composeDir
    ssl := ssl }

/-- One `psql` subprocess invocation performed by the seed interpreter;
`capture` marks the output-capturing variant used for `ref` lookups. -/
structure PsqlCall where
  runtime : PostgresRuntime
  db : String
  sql : String
  capture : Bool
deriving Repr, DecidableEq

/-- The effect of a piece of seed interpretation: the ordered list of
`psql` calls it performed, and its result (or the thrown error). -/
def SRes (α : Type) : Type := List PsqlCall × Except String α

def sOk {α : Type} (a : α) : SRes α := ([], .ok a)

def sErr {α : Type} (e : String) : SRes α := ([], .error e)

def sEmit (c : PsqlCall) : SRes Unit := ([c], .ok ())

def sLift {α : Type} : Except String α → SRes α
  | .ok a => sOk a
  | .error e => sErr e

/-- Sequencing: an error keeps the calls already made and aborts. -/
def sBind {α β : Type} (m : SRes α) (f : α → SRes β) : SRes β :=
  match m with
  | (t, .error e) => (t, .error e)
  | (t, .ok a) => ((t ++ (f a).1 : List PsqlCall), (f a).2)

/-- `for ... of` over a list, left to right. -/
def sForIn {α : Type} : List α → (α → SRes Unit) → SRes Unit
  | [], _ => sOk ()
  | x :: xs, f => sBind (f x) (fun _ => sForIn xs f)

/-- A fold that threads an accumulator left to right. -/
def sFoldl {α β : Type} : List α → β → (β → α → SRes β) → SRes β
  | [], b, _ => sOk b
  | x :: xs, b, f => sBind (f b x) (fun b2 => sFoldl xs b2 f)

/-- The capture oracle: what `runPsqlWithRuntimeCapture` prints for a
given database and SQL text. -/
def QueryOut : Type := String → String → String

/-- `isSeedRef`: truthiness of `value.ref`, `value.ref.table` and
`value.ref.where`. -/
def isSeedRef (v : JsVal) : Bool :=
  match v with
  | .obj fs =>
    jsTruthy (jsGet fs "ref") &&
    jsTruthy (jsIndexAny (jsGet fs "ref") "table") &&
    jsTruthy (jsIndexAny (jsGet fs "ref") "where")
  | _ => false

/-- The regex `^-?\d+$` of `resolveSeedRef`. -/
def isSignedDigits (s : String) : Bool :=
  match s.data with
  | [] => false
  | c :: rest =>
    if c = '-' then !rest.isEmpty && rest.all Char.isDigit
    else (c :: rest).all Char.isDigit

/-- `BigInt(value)` for a string matching `^-?\d+$`. -/
def parseSignedInt (s : String) : Int :=
  match s.data with
  | '-' :: rest => -((parseNatDigits rest).getD 0 : Int)
  | _ => ((parseNatDigits s.data).getD 0 : Int)

/-- The SQL text of a `ref` lookup
(`SELECT <column> FROM <table><whereSql> LIMIT 1;`). -/
def refSql (col t : String) (clauses : List String) : String :=
  "SELECT " ++ quoteIdentifier col ++ " FROM " ++ quoteIdentifier t ++
    (if clauses.isEmpty then "" else " WHERE " ++ String.intercalate " AND " clauses) ++
    " LIMIT 1;"

/-- `resolveSeedRef`: build the `SELECT ... LIMIT 1` lookup, run it with
output capture, fail when the trimmed output is empty, convert digit
strings to bigints.  Takes the fields of the `ref` object.  Plain
equality predicates are built for every `where` entry (there is no
`IS NULL` special case here, unlike `buildWhereSql`). -/
def resolveSeedRef (qout : QueryOut) (rt : PostgresRuntime) (db : String)
    (rfs : List (String × JsVal)) : SRes JsVal :=
  let columnE : Except String String :=
    match jsGet rfs "column" with
    | .null => .ok "id"
    | .undef => .ok "id"
    | .str c => .ok c
    | _ => .error "Seed ref column must be a string."
  sBind (sLift columnE) fun column =>
  let whereE : Except String (List (String × JsVal)) :=
    match jsGet rfs "where" with
    | .obj w => .ok w
    | _ => .error "Seed ref where must be an object."
  sBind (sLift whereE) fun whereFields =>
  let tableE : Except String String :=
    match jsGet rfs "table" with
    | .str t => .ok t
    | _ => .error "Seed ref table must be a string."
  sBind (sLift tableE) fun table =>
  sBind (sLift (whereFields.mapM (fun fv =>
      (match toSqlValue fv.2 with
       | .error e => .error e
       | .ok sv => .ok (quoteIdentifier fv.1 ++ " = " ++ sv) :
       Except String String)))) fun whereClauses =>
  let sql := refSql column table whereClauses
  sBind (sEmit ⟨rt, db, sql, true⟩) fun _ =>
  sLift (
    let value := jsTrim (qout db sql)
    if value = "" then
      .error ("Seed ref not found: " ++ table ++ "(" ++
        (if whereClauses.isEmpty then "no filter"
         else String.intercalate ", " whereClauses) ++ ")")
    else if isSignedDigits value then .ok (.bigint (parseSignedInt value))
    else .ok (.str value))

/-- `resolveSeedRow`: walk the row's entries in order, replacing every
`ref` value by its looked-up result. -/
def resolveSeedRow (qout : QueryOut) (rt : PostgresRuntime) (db : String)
    (row : List (String × JsVal)) : SRes (List (String × JsVal)) :=
  sFoldl row [] (fun acc kv =>
    if isSeedRef kv.2 then
      match kv.2 with
      | .obj fs =>
        match jsGet fs "ref" with
        | .obj rfs =>
          sBind (resolveSeedRef qout rt db rfs) (fun rv => sOk (acc ++ [(kv.1, rv)]))
        | _ => sErr "Seed ref must be an object."
      | _ => sErr "Seed ref must be an object."
    else sOk (acc ++ [(kv.1, kv.2)]))

/-- Decode the `upsertBy` list (`config?.upsertBy ?? []`, entries used as
identifier strings). -/
def upsertByList : JsVal → Except String (List String)
  | .null => .ok []
  | .undef => .ok []
  | .arr xs => xs.mapM (fun x =>
      (match x with
       | JsVal.str s => .ok s
       | _ => .error "upsertBy entries must be strings." : Except String String))
  | _ => .error "upsertBy must be an array."

/-- The body of `applyTableSeeds` for one `tables` entry. -/
def applyTableSeed (qout : QueryOut) (rt : PostgresRuntime) (db : String)
    (table : String) (cfg : JsVal) : SRes Unit :=
  let rowsE : Except String (List JsVal) :=
    match jsIndexAny cfg "rows" with
    | .arr xs => .ok xs
    | .null => .ok []
    | .undef => .ok []
    | _ => .error "Seed rows must be an array."
  sBind (sLift rowsE) fun rows =>
  if rows.isEmpty then sOk ()
  else
    let upsertByJs := jsIndexAny cfg "upsertBy"
    let upsertLen : Nat :=
      match upsertByJs with
      | .arr xs => xs.length
      | .str s => s.length
      | _ => 0
    let actionE : Except String String :=
      match jsIndexAny cfg "action" with
      | .null => .ok (if upsertLen > 0 then "upsert" else "insert")
      | .undef => .ok (if upsertLen > 0 then "upsert" else "insert")
      | .str s =>
        if s = "insert" || s = "upsert" then .ok s
        else .error ("Invalid table action \x22" ++ s ++ "\x22 in table \x22" ++ table ++
          "\x22. Use insert or upsert.")
      | v => .error ("Invalid table action \x22" ++ jsToString v ++ "\x22 in table \x22" ++
          table ++ "\x22. Use insert or upsert.")
    sBind (sLift actionE) fun action =>
    sBind (sLift (if action = "upsert" then upsertByList upsertByJs else .ok [])) fun upsertBy =>
    sForIn rows (fun rowJs =>
      match rowJs with
      | .obj row =>
        sBind (resolveSeedRow qout rt db row) fun resolvedRow =>
        sBind (sLift (buildInsertSql table resolvedRow (some upsertBy))) fun sql =>
        sEmit ⟨rt, db, sql, false⟩
      | _ => sErr "Seed row must be an object.")

/-- `applyTableSeeds`: the `tables` entries in their listed order. -/
def applyTableSeeds (qout : QueryOut) (rt : PostgresRuntime) (db : String)
    (tables : List (String × JsVal)) : SRes Unit :=
  sForIn tables (fun tc => applyTableSeed qout rt db tc.1 tc.2)

/-- `operation.table` as used by the SQL builders (a string, or a type
error). -/
def opTableE (op : List (String × JsVal)) : Except String String :=
  match jsGet op "table" with
  | .str t => .ok t
  | _ => .error "Operation table must be a string."

/-- The body of `applySeedOperations` for one operation. -/
def applySeedOperation (qout : QueryOut) (rt : PostgresRuntime) (db : String)
    (opJs : JsVal) : SRes Unit :=
  match opJs with
  | .obj op =>
    if ¬ jsTruthy (jsGet op "table") then sErr "Seed operation requires \x22table\x22."
    else
      match jsGet op "type" with
      | .str ty =>
        if ty = "insert" || ty = "upsert" then
          let rowsE : Except String (List JsVal) :=
            match jsGet op "rows" with
            | .null => .ok []
            | .undef => .ok []
            | .arr xs => .ok xs
            | _ => .error "Operation rows must be an array."
          sBind (sLift rowsE) fun rows =>
          if rows.isEmpty then
            sErr ("Operation \x22" ++ ty ++ "\x22 on " ++ jsToString (jsGet op "table") ++
              " requires \x22rows\x22.")
          else
            sBind (sLift (if ty = "upsert" then upsertByList (jsGet op "upsertBy") else .ok []))
              fun upsertBy =>
            sBind (sLift (opTableE op)) fun table =>
            sForIn rows (fun rowJs =>
              match rowJs with
              | .obj row =>
                sBind (resolveSeedRow qout rt db row) fun resolvedRow =>
                sBind (sLift (buildInsertSql table resolvedRow (some upsertBy))) fun sql =>
                sEmit ⟨rt, db, sql, false⟩
              | _ => sErr "Seed row must be an object.")
        else if ty = "update" then
          if ¬ (jsTruthy (jsGet op "where") && jsTruthy (jsGet op "set")) then
            sErr ("Operation \x22update\x22 on " ++ jsToString (jsGet op "table") ++
              " requires \x22where\x22 and \x22set\x22.")
          else
            match jsGet op "where", jsGet op "set" with
            | .obj w, .obj st =>
              sBind (resolveSeedRow qout rt db w) fun rw =>
              sBind (resolveSeedRow qout rt db st) fun rs =>
              sBind (sLift (opTableE op)) fun table =>
              sBind (sLift (buildUpdateSql table rs rw)) fun sql =>
              sEmit ⟨rt, db, sql, false⟩
            | _, _ => sErr "Operation where/set must be objects."
        else if ty = "delete" then
          if ¬ jsTruthy (jsGet op "where") then
            sErr ("Operation \x22delete\x22 on " ++ jsToString (jsGet op "table") ++
              " requires \x22where\x22.")
          else
            match jsGet op "where" with
            | .obj w =>
              sBind (resolveSeedRow qout rt db w) fun rw =>
              sBind (sLift (opTableE op)) fun table =>
              sBind (sLift (buildDeleteSql table rw)) fun sql =>
              sEmit ⟨rt, db, sql, false⟩
            | _ => sErr "Operation where must be an object."
        else sErr ("Unsupported seed operation type \x22" ++ ty ++ "\x22.")
      | other => sErr ("Unsupported seed operation type \x22" ++ jsToString other ++ "\x22.")
  | _ => sErr "Seed operation must be an object."

/-- `applySeedOperations`: the operations in their listed order. -/
def applySeedOperations (qout : QueryOut) (rt : PostgresRuntime) (db : String)
    (operations : List JsVal) : SRes Unit :=
  sForIn operations (fun op => applySeedOperation qout rt db op)

/-- `applyYamlSeedForDatabase`: nothing to do when both parts are empty;
otherwise all tables first, then all operations. -/
def applyYamlSeedForDatabase (qout : QueryOut) (rt : PostgresRuntime) (db : String)
    (tables : List (String × JsVal)) (operations : List JsVal) : SRes Unit :=
  if tables.isEmpty && operations.isEmpty then sOk ()
  else
    sBind (if tables.isEmpty then sOk () else applyTableSeeds qout rt db tables) fun _ =>
    if operations.isEmpty then sOk () else applySeedOperations qout rt db operations

/-- JS object spread `{...g, ...e}`: keys of `g` in order with values
overridden by `e` where present, then the new keys of `e` in order. -/
def spreadMerge (g e : List (String × JsVal)) : List (String × JsVal) :=
  (g.map fun kv =>
    match e.find? (fun p => p.1 == kv.1) with
    | some p => (kv.1, p.2)
    | none => kv) ++
  e.filter (fun p => (g.find? (fun q => q.1 == p.1)).isNone)

/-- The CLI options of `postgres seed-yaml` that the driver reads. -/
structure SeedYamlOptions where
  service : Option String := none
  user : Option String := none
  composeDir : Option String := none
  target : Option String := none
  db : Option String := none
deriving Repr, DecidableEq

/-- The parsed seed YAML document (the file read and `YAML.parse` are
outside the model; the four top-level sections are taken as given). -/
structure SeedYamlDoc where
  variablesJs : List (String × JsVal) := []
  tablesJs : Option (List (String × JsVal)) := none
  operationsJs : Option (List JsVal) := none
  databasesJs : Option (List (String × JsVal)) := none

/-- One iteration of the `databases` loop of `applyYamlSeed`: resolve the
entry's database name, target and runtime, merge the variables, interpolate
the entry's tables and operations with the merged variables, and apply
them.  Depends only on the global variables, the CLI options, the ambient
configuration and this one entry. -/
def dbEntryRun (qout : QueryOut) (env : EnvConfig) (penv : ProcessEnv)
    (options : SeedYamlOptions) (globalVars : List (String × JsVal))
    (entry : String × JsVal) : SRes Unit :=
  match entry.2 with
  | .obj cfgFs =>
    let dbNameE : Except String String :=
      match jsGet cfgFs "db" with
      | .null => .ok entry.1
      | .undef => .ok entry.1
      | .str s => .ok s
      | _ => .error "Database name must be a string."
    sBind (sLift dbNameE) fun dbName =>
    let targetE : Except String String :=
      match jsGet cfgFs "target" with
      | .null => .ok entry.1
      | .undef => .ok entry.1
      | .str s => .ok s
      | _ => .error "Database target must be a string."
    sBind (sLift targetE) fun target =>
    let rt := resolvePostgresRuntime env penv
      { service := options.service, user := options.user, composeDir := options.composeDir,
        target := some target, adminDb := none } (some target)
    let entryVars := match jsGet cfgFs "variables" with | .obj vs => vs | _ => []
    let merged := spreadMerge globalVars entryVars
    let scopedTables :=
      match applySeedVariables
          (match jsGet cfgFs "tables" with | .null => .obj [] | .undef => .obj [] | v => v)
          merged with
      | .obj fs => fs
      | _ => []
    let scopedOps :=
      match applySeedVariables
          (match jsGet cfgFs "operations" with | .null => .arr [] | .undef => .arr [] | v => v)
          merged with
      | .arr xs => xs
      | _ => []
    applyYamlSeedForDatabase qout rt dbName scopedTables scopedOps
  | _ => sErr "Database entry must be an object."

/-- The default (top-level) payload application of `applyYamlSeed`. -/
def defaultRun (qout : QueryOut) (env : EnvConfig) (penv : ProcessEnv)
    (options : SeedYamlOptions) (seed : SeedYamlDoc) : SRes Unit :=
  let defaultDb := options.db.getD "postgres"
  let rt := resolvePostgresRuntime env penv
    { service := options.service, user := options.user, composeDir := options.composeDir,
      target := options.target, adminDb := none } (some defaultDb)
  let defaultTables :=
    match applySeedVariables (.obj (seed.tablesJs.getD [])) seed.variablesJs with
    | .obj fs => fs
    | _ => []
  let defaultOps :=
    match applySeedVariables (.arr (seed.operationsJs.getD [])) seed.variablesJs with
    | .arr xs => xs
    | _ => []
  applyYamlSeedForDatabase qout rt defaultDb defaultTables defaultOps

/-- `applyYamlSeed`: the default payload (when present) strictly before the
`databases` entries, which are processed in their listed order. -/
def applyYamlSeed (qout : QueryOut) (env : EnvConfig) (penv : ProcessEnv)
    (options : SeedYamlOptions) (seed : SeedYamlDoc) : SRes Unit :=
  let hasDefault :=
    (match seed.tablesJs with | some fs => !fs.isEmpty | none => false) ||
    (match seed.operationsJs with | some xs => !xs.isEmpty | none => false)
  let hasDatabases := match seed.databasesJs with | some fs => !fs.isEmpty | none => false
  if !hasDefault && !hasDatabases then sOk ()
  else
    sBind (if hasDefault then defaultRun qout env penv options seed else sOk ()) fun _ =>
    match seed.databasesJs with
    | some dbs =>
      if hasDatabases then
        sForIn dbs (fun entry => dbEntryRun qout env penv options seed.variablesJs entry)
      else sOk ()
    | none => sOk ()

/-! ## Mock-API server: template interpolation -/

/-- Match the mock-server regex `{{\s*([^}]+)\s*}}` at the head of the
character list.  The leading `\s*` is greedy, so leading whitespace is
outside the capture; the capture `([^}]+)` is greedy and keeps any
whitespace before the closing braces; when the part after the leading
whitespace starts with a brace, backtracking hands exactly one whitespace
character back to the capture. -/
def matchTpl (cs : List Char) : Option (String × List Char) :=
  match stripLit ['{', '{'] cs with
  | none => none
  | some rest =>
    if !((rest.dropWhile isWsChar).takeWhile (fun c => c != '}')).isEmpty then
      match stripLit ['}', '}']
          ((rest.dropWhile isWsChar).dropWhile (fun c => c != '}')) with
      | some rem =>
        some (String.mk ((rest.dropWhile isWsChar).takeWhile (fun c => c != '}')), rem)
      | none => none
    else
      match (rest.takeWhile isWsChar).getLast? with
      | some cw =>
        match stripLit ['}', '}'] (rest.dropWhile isWsChar) with
        | some rem => some (String.mk [cw], rem)
        | none => none
      | none => none

theorem matchTpl_length {cs : List Char} {kr : String × List Char}
    (h : matchTpl cs = some kr) : kr.2.length < cs.length := by
  unfold matchTpl at h
  split at h
  · exact absurd h (by simp)
  case h_2 rest h0 =>
    have l0 := stripLit_length h0
    simp only [List.length_cons, List.length_nil] at l0
    have d0 : (rest.dropWhile isWsChar).length ≤ rest.length :=
      lenDropWhileLe isWsChar rest
    split at h
    · split at h
      case h_1 rem hs =>
        cases h
        show rem.length < cs.length
        have l1 := stripLit_length hs
        have d1 : ((rest.dropWhile isWsChar).dropWhile (fun c => c != '}')).length ≤
            (rest.dropWhile isWsChar).length :=
          lenDropWhileLe _ _
        simp only [List.length_cons, List.length_nil] at l1
        omega
      case h_2 => exact absurd h (by simp)
    · split at h
      case h_1 cw hlast =>
        split at h
        case h_1 rem hs =>
          cases h
          show rem.length < cs.length
          have l1 := stripLit_length hs
          simp only [List.length_cons, List.length_nil] at l1
          omega
        case h_2 => exact absurd h (by simp)
      case h_2 => exact absurd h (by simp)

/-- `token.split('.').reduce((acc, part) => acc?.[part], context)`. -/
def lookupTplPath (ctx : JsVal) (token : String) : JsVal :=
  (splitChar '.' token).foldl (fun acc part => jsIndexAny acc part) ctx

/-- Rendering of one template occurrence:
`value !== undefined ? String(value) : ''`. -/
def renderTpl (ctx : JsVal) (token : String) : String :=
  match lookupTplPath ctx token with
  | .undef => ""
  | v => jsToString v

/-- The scan of `interpolateString`: replace every `{{ ... }}` match,
copy every other character. -/
def interpolateChars (ctx : JsVal) (cs : List Char) : List Char :=
  match h : matchTpl cs with
  | some kr => (renderTpl ctx kr.1).data ++ interpolateChars ctx kr.2
  | none =>
    match cs with
    | [] => []
    | c :: rest => c :: interpolateChars ctx rest
termination_by cs.length
decreasing_by
· exact matchTpl_length h
· simp

/-- `interpolateString` from the mock server. -/
def interpolateString (ctx : JsVal) (template : String) : String :=
  String.mk (interpolateChars ctx template.data)

/- `applyTemplate` from the mock server: strings are interpolated, arrays
and objects are mapped recursively, other leaves pass through. -/
mutual

def applyTemplate (template : JsVal) (ctx : JsVal) : JsVal :=
  match template with
  | .str s => .str (interpolateString ctx s)
  | .arr xs => .arr (applyTemplateList xs ctx)
  | .obj fs => .obj (applyTemplateFields fs ctx)
  | v => v

def applyTemplateList (xs : List JsVal) (ctx : JsVal) : List JsVal :=
  match xs with
  | [] => []
  | x :: rest => applyTemplate x ctx :: applyTemplateList rest ctx

def applyTemplateFields (fs : List (String × JsVal)) (ctx : JsVal) :
    List (String × JsVal) :=
  match fs with
  | [] => []
  | kv :: rest => (kv.1, applyTemplate kv.2 ctx) :: applyTemplateFields rest ctx

end

/-! ## Mock-API server: resources fingerprint and hot reload -/

/-- A snapshot of the file tree under the resources root: file nodes carry
the `mtimeMs` and `size` that `fs.statSync` would report, and whether the
stat succeeds. -/
inductive FsEntry where
  | file (name : String) (mtimeMs size : Int) (statOk : Bool)
  | dir (name : String) (entries : List FsEntry)
deriving Repr

/- `collectYamlFiles`: walk the directory tree in entry order, descending
into directories and keeping files ending in `.yaml`/`.yml`.  The result
pairs each full path with the file's stat data. -/
mutual

def collectYamlEntry (dirPath : String) : FsEntry → List (String × Int × Int × Bool)
  | .file name mt sz ok =>
    if strEndsWith name ".yaml" || strEndsWith name ".yml" then
      [(dirPath ++ "/" ++ name, (mt, sz, ok))]
    else []
  | .dir name es => collectYamlList (dirPath ++ "/" ++ name) es

def collectYamlList (dirPath : String) : List FsEntry → List (String × Int × Int × Bool)
  | [] => []
  | e :: rest => collectYamlEntry dirPath e ++ collectYamlList dirPath rest

end

/-- The resources root: its path, whether it exists, and its entries. -/
structure FsSnapshot where
  rootPath : String
  rootExists : Bool
  entries : List FsEntry

/-- `collectYamlFiles(root)` with the `existsSync` guard. -/
def collectYamlFiles (snap : FsSnapshot) : List (String × Int × Int × Bool) :=
  if snap.rootExists then collectYamlList snap.rootPath snap.entries else []

/-- Insertion into a sorted list of strings. -/
def insertSorted (s : String) : List String → List String
  | [] => [s]
  | x :: xs => if strLeB s x then s :: x :: xs else x :: insertSorted s xs

/-- Lexicographic string sort (`Array.prototype.sort` with the default
comparator on these all-string entries). -/
def sortStrings : List String → List String
  | [] => []
  | x :: xs => insertSorted x (sortStrings xs)

/-- `fingerprintResources`: render `path:mtimeMs:size` per file (an empty
entry when the stat throws), sort, and join with `|`. -/
def fingerprintResources (snap : FsSnapshot) : String :=
  String.intercalate "|"
    (sortStrings ((collectYamlFiles snap).map (fun f =>
      if f.2.2.2 then f.1 ++ ":" ++ toString f.2.1 ++ ":" ++ toString f.2.2.1 else "")))

/-- The mutable server state touched by a reload: `currentState` /
`currentRouter` / `handlerCache` are abstracted into one rebuild
identifier, plus `lastResourcesFingerprint`. -/
structure ServerState where
  stateId : Nat
  lastFp : String
deriving Repr, DecidableEq

/-- `reloadResources`: when `buildAppState()` succeeds (`build = some id`)
the state is replaced and the fingerprint recomputed (`fpAfter`), returning
`true`; when it throws, the previous state and fingerprint are kept and
`false` is returned.  The manual `POST /virtual/reload` route calls exactly
this function. -/
def reloadResources (build : Option Nat) (fpAfter : String) (s : ServerState) :
    ServerState × Bool :=
  match build with
  | some newId => ({ stateId := newId, lastFp := fpAfter }, true)
  | none => (s, false)

/-- One tick of the hot-reload `setInterval` callback: recompute the
fingerprint (`fpNow`) and reload exactly when it differs from the recorded
one.  The second component reports whether a reload was attempted. -/
def pollTick (build : Option Nat) (fpNow fpAfter : String) (s : ServerState) :
    ServerState × Bool :=
  if fpNow ≠ s.lastFp then reloadResources build fpAfter s else (s, false)

/-- A run of consecutive poll ticks; each tick carries the build outcome
and the two fingerprint observations. -/
def runTicks (s : ServerState) : List (Option Nat × String × String) → ServerState × List Bool
  | [] => (s, [])
  | t :: rest =>
    let r := pollTick t.1 t.2.1 t.2.2 s
    let tail := runTicks r.1 rest
    (tail.1, r.2 :: tail.2)

/-! ## OpenSearch bulk-payload normalisation -/

/-- `isBulkMeta`: a non-array object with exactly one key among
`index`/`create`/`update`/`delete`. -/
def isBulkMeta (v : JsVal) : Bool :=
  match v with
  | .obj [(k, _)] => k = "index" || k = "create" || k = "update" || k = "delete"
  | _ => false

/-- JS object spread `{...value}` as a field list: objects contribute
their fields, arrays and strings their indexed elements, everything else
nothing. -/
def jsSpread : JsVal → List (String × JsVal)
  | .obj fs => fs
  | .arr xs => xs.enum.map (fun p => (toString p.1, p.2))
  | .str s => s.data.enum.map (fun p => (toString p.1, JsVal.str (String.mk [p.2])))
  | _ => []

/-- JS `delete obj[k]`. -/
def objDelete (fs : List (String × JsVal)) (k : String) : List (String × JsVal) :=
  fs.filter (fun p => p.1 != k)

/-- JS `obj[k] = v`: overwrite in place, or append a new key. -/
def objSet (fs : List (String × JsVal)) (k : String) (v : JsVal) :
    List (String × JsVal) :=
  if (fs.find? (fun p => p.1 == k)).isSome then
    fs.map (fun p => if p.1 == k then (p.1, v) else p)
  else fs ++ [(k, v)]

/-- Render a parsed line back with `JSON.stringify`; a stringify throw is
caught by the surrounding `try`, which falls back to the raw line. -/
def restringify (line : String) : JsVal → String
  | doc =>
    match jsonStr doc with
    | .ok (some out) => out
    | _ => line

/-- The per-line loop of `normalizeBulkPayload`.  `jsonParse` models
`JSON.parse` (`none` = throw), `isoAt` models
`new Date(ms).toISOString().replace(/\.\d\x7b3\x7dZ$/, 'Z')`, `idx` is
`payloadIndex`. -/
def nbpLines (jsonParse : String → Option JsVal) (isoAt : Int → String) (baseMs : Int)
    (dynamicIds dynamicTimestamps : Bool) (indexOverride : Option String) :
    List String → Nat → List String
  | [], _ => []
  | line :: rest, idx =>
    if jsTrim line = "" then
      nbpLines jsonParse isoAt baseMs dynamicIds dynamicTimestamps indexOverride rest idx
    else
      match jsonParse line with
      | none =>
        line :: nbpLines jsonParse isoAt baseMs dynamicIds dynamicTimestamps indexOverride rest idx
      | some doc =>
        if isBulkMeta doc then
          let out :=
            match doc with
            | .obj [(action, inner)] =>
              let meta0 := jsSpread inner
              let meta1 := if dynamicIds then objDelete meta0 "_id" else meta0
              let meta2 :=
                match indexOverride with
                | some o => if o = "" then meta1 else objSet meta1 "_index" (.str o)
                | none => meta1
              restringify line (.obj [(action, .obj meta2)])
            | _ => line
          out :: nbpLines jsonParse isoAt baseMs dynamicIds dynamicTimestamps indexOverride rest idx
        else
          match doc with
          | .obj fs =>
            if dynamicTimestamps then
              let ts := isoAt (baseMs + idx * 1000)
              let stamped := objSet (objSet fs "createdAt" (.str ts)) "updatedAt" (.str ts)
              restringify line (.obj stamped) ::
                nbpLines jsonParse isoAt baseMs dynamicIds dynamicTimestamps indexOverride rest (idx + 1)
            else
              restringify line (.obj fs) ::
                nbpLines jsonParse isoAt baseMs dynamicIds dynamicTimestamps indexOverride rest idx
          | .arr xs =>
            -- property writes on an array are ignored by `JSON.stringify`,
            -- but `payloadIndex` still advances
            restringify line (.arr xs) ::
              nbpLines jsonParse isoAt baseMs dynamicIds dynamicTimestamps indexOverride rest
                (if dynamicTimestamps then idx + 1 else idx)
          | other =>
            restringify line other ::
              nbpLines jsonParse isoAt baseMs dynamicIds dynamicTimestamps indexOverride rest idx

/-- `normalizeBulkPayload` from the OpenSearch command. -/
def normalizeBulkPayload (jsonParse : String → Option JsVal) (isoAt : Int → String)
    (baseMs : Int) (raw : String) (dynamicIds dynamicTimestamps : Bool)
    (indexOverride : Option String) : String :=
  String.intercalate "\n"
    (nbpLines jsonParse isoAt baseMs dynamicIds dynamicTimestamps indexOverride
      (splitChar '\n' raw) 0) ++ "\n"

/-! ## Parties reset -/

/-- The fields of `PartyDTO` used by the reset command; `orgId = none`
models a `null` parent (a root organization). -/
structure Party where
  id : String
  shortId : String
  name : String
  orgId : Option String
deriving Repr, DecidableEq

/-- JS truthiness of the `orgId` field (an empty string is falsy). -/
def truthyOrg : Option String → Bool
  | some o => o != ""
  | none => false

/-- The ids the `childrenMap` associates to `pid` (a JS `Set`, hence
deduplicated; only the membership and the cardinality of this set are ever
consumed, so the order in which `dedup` keeps duplicate occurrences is
irrelevant). -/
def childIds (parties : List Party) (pid : String) : List String :=
  ((parties.filter (fun c => truthyOrg c.orgId && c.orgId.getD "" == pid)).map Party.id).dedup

/-- `partyById.get`: the `Map` built from `parties.map(item => [item.id, item])`
keeps the last entry for a duplicated id. -/
def partyById (parties : List Party) (pid : String) : Option Party :=
  parties.reverse.find? (fun p => p.id == pid)

/-- Lookup in the `childCount` map (`?? 0`). -/
def countGet (m : List (String × Nat)) (k : String) : Nat :=
  ((m.find? (fun p => p.1 == k)).map Prod.snd).getD 0

/-- `childCount.set`. -/
def countSet (m : List (String × Nat)) (k : String) (v : Nat) : List (String × Nat) :=
  if (m.find? (fun p => p.1 == k)).isSome then
    m.map (fun p => if p.1 == k then (p.1, v) else p)
  else m ++ [(k, v)]

/-- The loop state of `resetParties`: the work queue (a JS array used as a
stack — `push`/`pop` at the end, modelled with the top at the head), the
`processed` set, the ordered trace of `DELETE /parties/:id` calls, and the
`childCount` map. -/
structure ResetState where
  stack : List String
  processed : List String
  deleted : List String
  counts : List (String × Nat)
deriving Repr, DecidableEq

/-- The `while (queue.length > 0)` loop of `resetParties`, with explicit
fuel (the safety claims below hold for every fuel value). -/
def resetLoop (parties : List Party) (deletableIds : List String) :
    Nat → ResetState → ResetState
  | 0, st => st
  | fuel + 1, st =>
    match st.stack with
    | [] => st
    | currentId :: restQ =>
      if st.processed.contains currentId then
        resetLoop parties deletableIds fuel { st with stack := restQ }
      else
        let st1 : ResetState :=
          { st with stack := restQ, processed := st.processed ++ [currentId] }
        match partyById parties currentId with
        | none => resetLoop parties deletableIds fuel st1
        | some party =>
          let st2 : ResetState := { st1 with deleted := st1.deleted ++ [party.id] }
          let st3 : ResetState :=
            match party.orgId with
            | some o =>
              if o != "" && deletableIds.contains o then
                let remaining : Int := (countGet st2.counts o : Int) - 1
                let st' : ResetState :=
                  { st2 with counts := countSet st2.counts o (max remaining 0).toNat }
                if remaining ≤ 0 then { st' with stack := o :: st'.stack } else st'
              else st2
            | none => st2
          resetLoop parties deletableIds fuel st3

/-- The removable set: every party, minus root organizations unless
`--remove-roots` is given. -/
def removableParties (removeRoots : Bool) (parties : List Party) : List Party :=
  parties.filter (fun p => removeRoots || p.orgId.isSome)

/-- The initial `childCount` of one removable party. -/
def initCount (parties : List Party) (deletableIds : List String) (p : Party) : Nat :=
  ((childIds parties p.id).filter (fun c => deletableIds.contains c)).length

/-- The initial loop state of `resetParties`: counts for every removable
party, and the queue seeded with the removable parties that have no
removable children (reversed because the JS array pops from the end). -/
def initResetState (removeRoots : Bool) (parties : List Party) : ResetState :=
  let removable := removableParties removeRoots parties
  let deletableIds := removable.map Party.id
  let counts := removable.map (fun p => (p.id, initCount parties deletableIds p))
  { stack := ((removable.filter (fun p =>
        countGet counts p.id = 0)).map Party.id).reverse
    processed := []
    deleted := []
    counts := counts }

/-- `resetParties` (its deletion behaviour): early-out when there is
nothing to delete, otherwise run the loop. -/
def resetParties (removeRoots : Bool) (parties : List Party) (fuel : Nat) : ResetState :=
  let removable := removableParties removeRoots parties
  if parties.isEmpty then initResetState removeRoots parties
  else if removable.isEmpty then initResetState removeRoots parties
  else
    resetLoop parties (removable.map Party.id) fuel (initResetState removeRoots parties)

/-! ## Escaping lemmas -/

theorem singleQuotesDoubled_esc (cs : List Char) :
    singleQuotesDoubled (escSingleQuotes cs) = true := by
  induction cs with
  | nil => rfl
  | cons c rest ih =>
    by_cases hc : c = squote
    · simp [escSingleQuotes, hc, singleQuotesDoubled, ih]
    · rw [escSingleQuotes, if_neg hc, singleQuotesDoubled.eq_def]
      simp only [hc, if_false]
      exact ih

theorem doubleQuotesDoubled_esc (cs : List Char) :
    doubleQuotesDoubled (escDoubleQuotes cs) = true := by
  induction cs with
  | nil => rfl
  | cons c rest ih =>
    by_cases hc : c = dquote
    · simp [escDoubleQuotes, hc, doubleQuotesDoubled, ih]
    · rw [escDoubleQuotes, if_neg hc, doubleQuotesDoubled.eq_def]
      simp only [hc, if_false]
      exact ih

theorem toSqlValue_obj_not_escape (fs : List (String × JsVal))
    (hns : ∀ s, fs ≠ [("sql", JsVal.str s)]) :
    toSqlValue (.obj fs) = sqlJsonLiteral (.obj fs) := by
  cases fs with
  | nil => rfl
  | cons kv tail =>
    cases tail with
    | cons a b =>
      obtain ⟨k, v⟩ := kv
      cases v <;> rfl
    | nil =>
      obtain ⟨k, v⟩ := kv
      cases v with
      | str s =>
        have hks : ¬ (k = "sql") := by
          intro hk
          exact hns s (by rw [hk])
        simp [toSqlValue, hks]
      | null => rfl
      | undef => rfl
      | num i => rfl
      | numNF r => rfl
      | bigint i => rfl
      | bool b => rfl
      | date iso => rfl
      | arr xs => rfl
      | obj gs => rfl

/-! ## Claim theorems -/

/-- C1: `buildInsertSql` produces an INSERT whose column list and value
list are the row's keys in order; a non-empty `upsertBy` appends
`ON CONFLICT` over exactly the `upsertBy` columns with
`DO UPDATE SET col = EXCLUDED.col` for every column not in `upsertBy`,
`DO NOTHING` when every column is an upsert key, a plain INSERT when
`upsertBy` is empty or absent; and a row with zero columns is an error. -/
theorem c1_buildInsertSql (table : String) (row : List (String × JsVal))
    (upsertBy : Option (List String)) :
    (row = [] →
      buildInsertSql table row upsertBy =
        Except.error ("Seed row for table \x22" ++ table ++ "\x22 has no columns.")) ∧
    (∀ vals,
      (row.map Prod.fst).mapM (fun col => toSqlValue (jsGet row col)) = Except.ok vals →
      row ≠ [] →
      buildInsertSql table row upsertBy =
        Except.ok
          (match upsertBy with
           | none =>
             "INSERT INTO " ++ quoteIdentifier table ++ " (" ++
               String.intercalate ", " ((row.map Prod.fst).map quoteIdentifier) ++
               ") VALUES (" ++ String.intercalate ", " vals ++ ")" ++ ";"
           | some ub =>
             if ub.isEmpty then
               "INSERT INTO " ++ quoteIdentifier table ++ " (" ++
                 String.intercalate ", " ((row.map Prod.fst).map quoteIdentifier) ++
                 ") VALUES (" ++ String.intercalate ", " vals ++ ")" ++ ";"
             else if ((row.map Prod.fst).filter (fun col => ¬ ub.contains col)).isEmpty then
               "INSERT INTO " ++ quoteIdentifier table ++ " (" ++
                 String.intercalate ", " ((row.map Prod.fst).map quoteIdentifier) ++
                 ") VALUES (" ++ String.intercalate ", " vals ++ ")" ++
                 " ON CONFLICT (" ++ String.intercalate ", " (ub.map quoteIdentifier) ++
                 ") DO NOTHING;"
             else
               "INSERT INTO " ++ quoteIdentifier table ++ " (" ++
                 String.intercalate ", " ((row.map Prod.fst).map quoteIdentifier) ++
                 ") VALUES (" ++ String.intercalate ", " vals ++ ")" ++
                 " ON CONFLICT (" ++ String.intercalate ", " (ub.map quoteIdentifier) ++
                 ") DO UPDATE SET " ++
                 String.intercalate ", "
                   (((row.map Prod.fst).filter (fun col => ¬ ub.contains col)).map
                     (fun col => quoteIdentifier col ++ " = EXCLUDED." ++ quoteIdentifier col)) ++
                 ";")) := by
  constructor
  · intro hrow
    subst hrow
    rfl
  · intro vals hvals hrow
    have hne : (row.map Prod.fst).isEmpty = false := by
      cases row with
      | nil => exact absurd rfl hrow
      | cons a b => rfl
    unfold buildInsertSql
    simp only [hne, Bool.false_eq_true, if_false, hvals]
    cases upsertBy with
    | none => rfl
    | some ub =>
      by_cases hub : ub.isEmpty = true
      · simp only [hub, if_true]
      · simp only [hub, Bool.false_eq_true, if_false]
        by_cases hupd :
            ((row.map Prod.fst).filter (fun col => ¬ ub.contains col)).isEmpty = true
        · simp only [hupd, if_true]
        · simp only [hupd, Bool.false_eq_true, if_false]

theorem c1_buildInsertSql_witness :
    buildInsertSql "users" [] none =
      Except.error "Seed row for table \x22users\x22 has no columns." ∧
    buildInsertSql "users" [("id", JsVal.num 1), ("name", JsVal.str "bob")] (some ["id"]) =
      Except.ok ("INSERT INTO \x22users\x22 (\x22id\x22, \x22name\x22) VALUES (1, \x27bob\x27)" ++
        " ON CONFLICT (\x22id\x22) DO UPDATE SET \x22name\x22 = EXCLUDED.\x22name\x22;") := by
  constructor
  · exact (c1_buildInsertSql "users" [] none).1 rfl
  · have h := (c1_buildInsertSql "users" [("id", JsVal.num 1), ("name", JsVal.str "bob")]
      (some ["id"])).2 ["1", "\x27bob\x27"] rfl (by simp)
    simpa using h

/-- C8: every non-escape-hatch value is rendered with its quotes doubled:
string, date and JSON-serialised object/array literals contain only
doubled single quotes, null/undefined become NULL, finite numbers and
bigints are rendered bare, booleans become TRUE/FALSE, non-finite numbers
raise an error, and `quoteIdentifier` doubles every double quote. -/
theorem c8_toSqlValue_escaping :
    (∀ s : String,
      toSqlValue (.str s) = .ok ("\x27" ++ String.mk (escSingleQuotes s.data) ++ "\x27") ∧
      singleQuotesDoubled (escSingleQuotes s.data) = true) ∧
    (∀ iso : String,
      toSqlValue (.date iso) = .ok ("\x27" ++ String.mk (escSingleQuotes iso.data) ++ "\x27") ∧
      singleQuotesDoubled (escSingleQuotes iso.data) = true) ∧
    (∀ (fs : List (String × JsVal)) (j : String),
      (∀ s, fs ≠ [("sql", JsVal.str s)]) →
      jsonStr (.obj fs) = .ok (some j) →
      toSqlValue (.obj fs) =
        .ok ("\x27" ++ String.mk (escSingleQuotes j.data) ++ "\x27::jsonb") ∧
      singleQuotesDoubled (escSingleQuotes j.data) = true) ∧
    (∀ (xs : List JsVal) (j : String),
      jsonStr (.arr xs) = .ok (some j) →
      toSqlValue (.arr xs) =
        .ok ("\x27" ++ String.mk (escSingleQuotes j.data) ++ "\x27::jsonb") ∧
      singleQuotesDoubled (escSingleQuotes j.data) = true) ∧
    (toSqlValue .null = .ok "NULL" ∧ toSqlValue .undef = .ok "NULL") ∧
    (∀ i : Int, toSqlValue (.num i) = .ok (toString i) ∧
      toSqlValue (.bigint i) = .ok (toString i)) ∧
    (∀ b, toSqlValue (.bool b) = .ok (if b then "TRUE" else "FALSE")) ∧
    (∀ r, toSqlValue (.numNF r) = .error "Invalid number value in seed YAML.") ∧
    (∀ v : String,
      quoteIdentifier v = String.mk (dquote :: (escDoubleQuotes v.data ++ [dquote])) ∧
      doubleQuotesDoubled (escDoubleQuotes v.data) = true) := by
  refine ⟨fun s => ⟨rfl, singleQuotesDoubled_esc _⟩,
    fun iso => ⟨rfl, singleQuotesDoubled_esc _⟩,
    fun fs j hns hj => ⟨?_, singleQuotesDoubled_esc _⟩,
    fun xs j hj => ⟨?_, singleQuotesDoubled_esc _⟩,
    ⟨rfl, rfl⟩, fun i => ⟨rfl, rfl⟩, fun b => rfl, fun r => rfl,
    fun v => ⟨rfl, doubleQuotesDoubled_esc _⟩⟩
  · rw [toSqlValue_obj_not_escape fs hns]
    simp [sqlJsonLiteral, hj]
  · show sqlJsonLiteral (.arr xs) = _
    simp [sqlJsonLiteral, hj]

theorem c8_toSqlValue_escaping_witness :
    toSqlValue (JsVal.obj [("a", JsVal.str "it\x27s")]) =
      .ok "\x27\x7b\x22a\x22:\x22it\x27\x27s\x22\x7d\x27::jsonb" ∧
    singleQuotesDoubled (escSingleQuotes "\x7b\x22a\x22:\x22it\x27s\x22\x7d".data) = true := by
  have h := c8_toSqlValue_escaping.2.2.1 [("a", JsVal.str "it\x27s")]
    "\x7b\x22a\x22:\x22it\x27s\x22\x7d" (by intro s h; simp at h) rfl
  exact ⟨by simpa using h.1, h.2⟩

/-! ## Scanner characteristic equations -/

theorem applySeedVariablesList_eq (xs : List JsVal) (vars : List (String × JsVal)) :
    applySeedVariablesList xs vars = xs.map (fun x => applySeedVariables x vars) := by
  induction xs with
  | nil => rfl
  | cons x rest ih => rw [applySeedVariablesList, ih, List.map_cons]

theorem applySeedVariablesFields_eq (fs : List (String × JsVal))
    (vars : List (String × JsVal)) :
    applySeedVariablesFields fs vars =
      fs.map (fun kv => (kv.1, applySeedVariables kv.2 vars)) := by
  induction fs with
  | nil => rfl
  | cons kv rest ih => rw [applySeedVariablesFields, ih, List.map_cons]

theorem scanHB_match {vars : List (String × JsVal)} {cs : List Char}
    {kr : String × List Char} (h : matchHB cs = some kr) :
    scanHB vars cs = (renderSeedVar vars kr.1).data ++ scanHB vars kr.2 := by
  rw [scanHB.eq_def]
  split
  · rename_i kr2 heq
    rw [h] at heq
    injection heq with hk
    subst hk
    rfl
  · rename_i heq
    rw [h] at heq
    cases heq

theorem scanHB_nil (vars : List (String × JsVal)) : scanHB vars [] = [] := by
  rw [scanHB.eq_def]
  split
  · rename_i kr2 heq
    rw [show matchHB [] = none from rfl] at heq
    cases heq
  · rfl

theorem scanHB_copy {vars : List (String × JsVal)} {c : Char} {rest : List Char}
    (h : matchHB (c :: rest) = none) :
    scanHB vars (c :: rest) = c :: scanHB vars rest := by
  rw [scanHB.eq_def]
  split
  · rename_i kr2 heq
    rw [h] at heq
    cases heq
  · rfl

theorem scanLegacy_match {vars : List (String × JsVal)} {cs : List Char}
    {kr : String × List Char} (h : matchLegacy cs = some kr) :
    scanLegacy vars cs = (renderSeedVar vars kr.1).data ++ scanLegacy vars kr.2 := by
  rw [scanLegacy.eq_def]
  split
  · rename_i kr2 heq
    rw [h] at heq
    injection heq with hk
    subst hk
    rfl
  · rename_i heq
    rw [h] at heq
    cases heq

theorem scanLegacy_nil (vars : List (String × JsVal)) : scanLegacy vars [] = [] := by
  rw [scanLegacy.eq_def]
  split
  · rename_i kr2 heq
    rw [show matchLegacy [] = none from rfl] at heq
    cases heq
  · rfl

theorem scanLegacy_copy {vars : List (String × JsVal)} {c : Char} {rest : List Char}
    (h : matchLegacy (c :: rest) = none) :
    scanLegacy vars (c :: rest) = c :: scanLegacy vars rest := by
  rw [scanLegacy.eq_def]
  split
  · rename_i kr2 heq
    rw [h] at heq
    cases heq
  · rfl

/-- C2: `applySeedVariables` recurses through arrays and objects and
interpolates strings: a whole-string `{{ vars.KEY }}` or `${KEY}`
placeholder becomes the variable's value with its original type (the
empty string when undefined); embedded placeholders are each replaced by
the `String()` rendering of the variable (empty when undefined), first the
handlebars pass and then the legacy pass; other leaves are unchanged. -/
theorem c2_applySeedVariables :
    (∀ (vars : List (String × JsVal)) (s : String) (key : String),
      parseExactHB s = some key →
      applySeedVariables (.str s) vars =
        (match resolveVarByPath vars key with
         | JsVal.undef => JsVal.str ""
         | v => v)) ∧
    (∀ (vars : List (String × JsVal)) (s : String) (key : String),
      parseExactHB s = none → parseExactLegacy s = some key →
      applySeedVariables (.str s) vars =
        (match resolveVarByPath vars key with
         | JsVal.undef => JsVal.str ""
         | v => v)) ∧
    (∀ (vars : List (String × JsVal)) (s : String),
      parseExactHB s = none → parseExactLegacy s = none →
      applySeedVariables (.str s) vars =
        .str (String.mk (scanLegacy vars (scanHB vars s.data)))) ∧
    (∀ (vars : List (String × JsVal)) (cs : List Char) (kr : String × List Char),
      matchHB cs = some kr →
      scanHB vars cs =
        (match resolveVarByPath vars kr.1 with
         | JsVal.undef => ""
         | v => jsToString v).data ++ scanHB vars kr.2) ∧
    (∀ (vars : List (String × JsVal)) (cs : List Char) (kr : String × List Char),
      matchLegacy cs = some kr →
      scanLegacy vars cs =
        (match resolveVarByPath vars kr.1 with
         | JsVal.undef => ""
         | v => jsToString v).data ++ scanLegacy vars kr.2) ∧
    (∀ (vars : List (String × JsVal)) (c : Char) (rest : List Char),
      matchHB (c :: rest) = none → scanHB vars (c :: rest) = c :: scanHB vars rest) ∧
    (∀ (vars : List (String × JsVal)) (c : Char) (rest : List Char),
      matchLegacy (c :: rest) = none →
        scanLegacy vars (c :: rest) = c :: scanLegacy vars rest) ∧
    (∀ (vars : List (String × JsVal)) (xs : List JsVal),
      applySeedVariables (.arr xs) vars = .arr (xs.map (fun x => applySeedVariables x vars))) ∧
    (∀ (vars : List (String × JsVal)) (fs : List (String × JsVal)),
      applySeedVariables (.obj fs) vars =
        .obj (fs.map (fun kv => (kv.1, applySeedVariables kv.2 vars)))) ∧
    (∀ vars : List (String × JsVal),
      applySeedVariables .null vars = .null ∧
      applySeedVariables .undef vars = .undef ∧
      (∀ i, applySeedVariables (.num i) vars = .num i) ∧
      (∀ r, applySeedVariables (.numNF r) vars = .numNF r) ∧
      (∀ i, applySeedVariables (.bigint i) vars = .bigint i) ∧
      (∀ b, applySeedVariables (.bool b) vars = .bool b) ∧
      (∀ d, applySeedVariables (.date d) vars = .date d)) := by
  refine ⟨?_, ?_, ?_, ?_, ?_, ?_, ?_, ?_, ?_, ?_⟩
  · intro vars s key h
    rw [applySeedVariables, h]
    rfl
  · intro vars s key h1 h2
    rw [applySeedVariables, h1, h2]
    rfl
  · intro vars s h1 h2
    rw [applySeedVariables, h1, h2]
  · intro vars cs kr h
    exact scanHB_match h
  · intro vars cs kr h
    exact scanLegacy_match h
  · intro vars c rest h
    exact scanHB_copy h
  · intro vars c rest h
    exact scanLegacy_copy h
  · intro vars xs
    rw [applySeedVariables, applySeedVariablesList_eq]
  · intro vars fs
    rw [applySeedVariables, applySeedVariablesFields_eq]
  · intro vars
    exact ⟨rfl, rfl, fun i => rfl, fun r => rfl, fun i => rfl, fun b => rfl, fun d => rfl⟩

theorem c2_applySeedVariables_witness :
    applySeedVariables (.str "\x7b\x7b vars.a \x7d\x7d") [("a", JsVal.num 5)] =
      JsVal.num 5 ∧
    applySeedVariables (.str "$\x7ba\x7d") [("a", JsVal.bool true)] = JsVal.bool true ∧
    applySeedVariables (.str "\x7b\x7b vars.missing \x7d\x7d") [] = JsVal.str "" ∧
    scanLegacy [("a", JsVal.num 5)] ('$' :: '\x7b' :: 'a' :: '\x7d' :: []) = ['5'] ∧
    applySeedVariables (.str "v") [] = JsVal.str "v" := by
  refine ⟨?_, ?_, ?_, ?_, ?_⟩
  · exact (c2_applySeedVariables.1 [("a", JsVal.num 5)]
      "\x7b\x7b vars.a \x7d\x7d" "a" rfl).trans rfl
  · exact (c2_applySeedVariables.2.1 [("a", JsVal.bool true)]
      "$\x7ba\x7d" "a" rfl rfl).trans rfl
  · exact (c2_applySeedVariables.1 []
      "\x7b\x7b vars.missing \x7d\x7d" "missing" rfl).trans rfl
  · have h := c2_applySeedVariables.2.2.2.2.1 [("a", JsVal.num 5)]
      ('$' :: '\x7b' :: 'a' :: '\x7d' :: []) ("a", []) rfl
    rw [h, scanLegacy_nil]
    have hv : (match resolveVarByPath [("a", JsVal.num 5)] (("a", ([] : List Char))).1 with
        | JsVal.undef => ""
        | v => jsToString v) = "5" := by
      show jsToString (JsVal.num 5) = "5"
      rw [jsToString.eq_def]
      decide
    rw [hv]
    decide
  · rw [c2_applySeedVariables.2.2.1 [] "v" rfl rfl]
    rw [show "v".data = 'v' :: ([] : List Char) from rfl]
    rw [@scanHB_copy [] 'v' [] rfl, scanHB_nil]
    rw [@scanLegacy_copy [] 'v' [] rfl, scanLegacy_nil]

/-! ## Sequencing lemmas for the seed-effect monad -/

@[simp]
theorem sBind_sOk {α β : Type} (a : α) (f : α → SRes β) : sBind (sOk a) f = f a := by
  simp [sBind, sOk]

@[simp]
theorem sBind_sErr {α β : Type} (e : String) (f : α → SRes β) :
    sBind (sErr e) f = sErr e := by
  simp [sBind, sErr]

@[simp]
theorem sLift_ok {α : Type} (a : α) : sLift (Except.ok a) = sOk a := rfl

@[simp]
theorem sLift_error {α : Type} (e : String) :
    sLift (Except.error e : Except String α) = sErr e := rfl

@[simp]
theorem sBind_sEmit {β : Type} (c : PsqlCall) (f : Unit → SRes β) :
    sBind (sEmit c) f = (c :: (f ()).1, (f ()).2) := by
  simp [sBind, sEmit]

theorem sBind_ok_fst {α β : Type} {m : SRes α} {a : α} (f : α → SRes β)
    (h : m.2 = Except.ok a) : sBind m f = (m.1 ++ (f a).1, (f a).2) := by
  obtain ⟨t, r⟩ := m
  cases r with
  | ok b =>
    simp only at h
    cases h
    rfl
  | error e => cases h

theorem sBind_error_fst {α β : Type} {m : SRes α} {e : String} (f : α → SRes β)
    (h : m.2 = Except.error e) : sBind m f = (m.1, Except.error e) := by
  obtain ⟨t, r⟩ := m
  cases r with
  | ok b => cases h
  | error e2 =>
    simp only at h
    cases h
    rfl

@[simp]
theorem sForIn_nil {α : Type} (f : α → SRes Unit) : sForIn [] f = sOk () := rfl

theorem sForIn_cons {α : Type} (x : α) (xs : List α) (f : α → SRes Unit) :
    sForIn (x :: xs) f = sBind (f x) (fun _ => sForIn xs f) := rfl

theorem sForIn_cons_ok {α : Type} {x : α} {xs : List α} {f : α → SRes Unit}
    (h : (f x).2 = Except.ok ()) :
    sForIn (x :: xs) f = ((f x).1 ++ (sForIn xs f).1, (sForIn xs f).2) := by
  rw [sForIn_cons, sBind_ok_fst _ h]

theorem sLiftFstNil {α : Type} (r : Except String α) : (sLift r).1 = [] := by
  cases r <;> rfl

theorem sLiftSndId {α : Type} (r : Except String α) : (sLift r).2 = r := by
  cases r <;> rfl

/-- C4: a `{ref: {table, where, column?}}` value resolves through a
`SELECT <column, default id> FROM <table> WHERE <equality conjunction>
LIMIT 1` capture query against the target database; an empty (trimmed)
result fails with an error naming the table and filter, a digit-string
result is converted to a bigint, anything else stays a string. -/
theorem c4_resolveSeedRef (qout : QueryOut) (rt : PostgresRuntime) (db : String)
    (rfs w : List (String × JsVal)) (col t : String) (clauses : List String)
    (hcol : ((jsGet rfs "column" = JsVal.undef ∨ jsGet rfs "column" = JsVal.null) ∧
        col = "id") ∨ jsGet rfs "column" = JsVal.str col)
    (hw : jsGet rfs "where" = JsVal.obj w)
    (ht : jsGet rfs "table" = JsVal.str t)
    (hclauses : w.mapM (fun fv =>
        (match toSqlValue fv.2 with
         | .error e => .error e
         | .ok sv => .ok (quoteIdentifier fv.1 ++ " = " ++ sv) :
         Except String String)) = Except.ok clauses) :
    resolveSeedRef qout rt db rfs =
      ([⟨rt, db, refSql col t clauses, true⟩],
        if jsTrim (qout db (refSql col t clauses)) = "" then
          Except.error ("Seed ref not found: " ++ t ++ "(" ++
            (if clauses.isEmpty then "no filter"
             else String.intercalate ", " clauses) ++ ")")
        else if isSignedDigits (jsTrim (qout db (refSql col t clauses))) then
          Except.ok (.bigint (parseSignedInt (jsTrim (qout db (refSql col t clauses)))))
        else Except.ok (.str (jsTrim (qout db (refSql col t clauses))))) := by
  have hcq : (match jsGet rfs "column" with
      | JsVal.null => Except.ok "id"
      | JsVal.undef => Except.ok "id"
      | JsVal.str c => Except.ok c
      | _ => Except.error "Seed ref column must be a string.") = Except.ok col := by
    rcases hcol with ⟨hu, hid⟩ | hs
    · rcases hu with hu | hu <;> rw [hu, hid]
    · rw [hs]
  unfold resolveSeedRef
  rw [hcq, hw, ht]
  simp only [sLift_ok, sBind_sOk]
  rw [hclauses]
  simp only [sLift_ok, sBind_sOk, sBind_sEmit]
  rw [Prod.mk.injEq]
  constructor
  · rw [sLiftFstNil]
  · rw [sLiftSndId]

/-- A concrete runtime used by witnesses. -/
def witnessRuntime : PostgresRuntime :=
  ⟨"compose", "postgres", "postgres", none, none, 5432, "postgres", ".", none⟩

theorem c4_resolveSeedRef_witness :
    resolveSeedRef (fun _ _ => " 42\n") witnessRuntime
      "appdb" [("table", JsVal.str "users"), ("where", JsVal.obj [("name", JsVal.str "bob")])] =
      ([⟨witnessRuntime, "appdb",
          "SELECT \x22id\x22 FROM \x22users\x22 WHERE \x22name\x22 = \x27bob\x27 LIMIT 1;",
          true⟩],
        Except.ok (JsVal.bigint 42)) := by
  have h := c4_resolveSeedRef (fun _ _ => " 42\n") witnessRuntime
    "appdb" [("table", JsVal.str "users"), ("where", JsVal.obj [("name", JsVal.str "bob")])]
    [("name", JsVal.str "bob")] "id" "users" ["\x22name\x22 = \x27bob\x27"]
    (Or.inl ⟨Or.inl rfl, rfl⟩) rfl rfl rfl
  rw [h]
  rfl

/-- C3: execution is strictly sequential: the default payload's calls all
precede the `databases` entries' calls; within one scope all table rows
run before the first operation; tables, rows, operations and database
entries are processed in their listed order (each trace is the
concatenation of the per-item traces, in order). -/
theorem c3_seed_sequencing :
    (∀ (qout : QueryOut) (env : EnvConfig) (penv : ProcessEnv)
       (opts : SeedYamlOptions) (seed : SeedYamlDoc) (dbs : List (String × JsVal)),
      seed.databasesJs = some dbs →
      ((match seed.tablesJs with | some fs => !fs.isEmpty | none => false) ||
        (match seed.operationsJs with | some xs => !xs.isEmpty | none => false)) = true →
      (!dbs.isEmpty) = true →
      (defaultRun qout env penv opts seed).2 = Except.ok () →
      applyYamlSeed qout env penv opts seed =
        ((defaultRun qout env penv opts seed).1 ++
          (sForIn dbs (fun entry =>
            dbEntryRun qout env penv opts seed.variablesJs entry)).1,
         (sForIn dbs (fun entry =>
            dbEntryRun qout env penv opts seed.variablesJs entry)).2)) ∧
    (∀ (qout : QueryOut) (rt : PostgresRuntime) (db : String)
       (tables : List (String × JsVal)) (ops : List JsVal),
      (!tables.isEmpty) = true → (!ops.isEmpty) = true →
      (applyTableSeeds qout rt db tables).2 = Except.ok () →
      applyYamlSeedForDatabase qout rt db tables ops =
        ((applyTableSeeds qout rt db tables).1 ++ (applySeedOperations qout rt db ops).1,
         (applySeedOperations qout rt db ops).2)) ∧
    (∀ (qout : QueryOut) (rt : PostgresRuntime) (db : String)
       (tc : String × JsVal) (rest : List (String × JsVal)),
      (applyTableSeed qout rt db tc.1 tc.2).2 = Except.ok () →
      applyTableSeeds qout rt db (tc :: rest) =
        ((applyTableSeed qout rt db tc.1 tc.2).1 ++ (applyTableSeeds qout rt db rest).1,
         (applyTableSeeds qout rt db rest).2)) ∧
    (∀ (qout : QueryOut) (rt : PostgresRuntime) (db : String)
       (op : JsVal) (rest : List JsVal),
      (applySeedOperation qout rt db op).2 = Except.ok () →
      applySeedOperations qout rt db (op :: rest) =
        ((applySeedOperation qout rt db op).1 ++ (applySeedOperations qout rt db rest).1,
         (applySeedOperations qout rt db rest).2)) ∧
    (∀ (f : JsVal → SRes Unit) (x : JsVal) (xs : List JsVal),
      (f x).2 = Except.ok () →
      sForIn (x :: xs) f = ((f x).1 ++ (sForIn xs f).1, (sForIn xs f).2)) := by
  refine ⟨?_, ?_, ?_, ?_, ?_⟩
  · intro qout env penv opts seed dbs hdbs hdef hne hok
    unfold applyYamlSeed
    rw [hdbs]
    simp only [hdef, hne, Bool.not_true, Bool.false_and, Bool.false_eq_true, if_false,
      if_true]
    rw [sBind_ok_fst _ hok]
  · intro qout rt db tables ops hte hoe hok
    unfold applyYamlSeedForDatabase
    have hte2 : tables.isEmpty = false := by revert hte; cases tables.isEmpty <;> simp
    have hoe2 : ops.isEmpty = false := by revert hoe; cases ops.isEmpty <;> simp
    simp only [hte2, hoe2, Bool.false_and, Bool.false_eq_true, if_false]
    rw [sBind_ok_fst _ hok]
  · intro qout rt db tc rest hok
    unfold applyTableSeeds
    rw [@sForIn_cons_ok _ tc rest (fun tc => applyTableSeed qout rt db tc.1 tc.2) hok]
  · intro qout rt db op rest hok
    unfold applySeedOperations
    rw [@sForIn_cons_ok _ op rest (fun op => applySeedOperation qout rt db op) hok]
  · intro f x xs hok
    exact sForIn_cons_ok hok

/-- Concrete inputs for the sequencing witnesses. -/
def seedW : SeedYamlDoc :=
  { variablesJs := []
    tablesJs := some [("t", JsVal.obj [])]
    operationsJs := none
    databasesJs := some [("d", JsVal.obj [])] }

def envW : EnvConfig := {}

def penvW : ProcessEnv := {}

def optsW : SeedYamlOptions := {}

def qoutW : QueryOut := fun _ _ => ""

theorem c3_seed_sequencing_witness :
    applyYamlSeed qoutW envW penvW optsW seedW = ([], Except.ok ()) ∧
    sForIn [JsVal.null] (fun _ => sOk ()) = sOk () := by
  have h1 : applySeedVariables (JsVal.obj []) [] = JsVal.obj [] := by
    rw [applySeedVariables, applySeedVariablesFields]
  have h2 : applySeedVariables (JsVal.obj [("t", JsVal.obj [])]) [] =
      JsVal.obj [("t", JsVal.obj [])] := by
    rw [applySeedVariables, applySeedVariablesFields, applySeedVariablesFields, h1]
  have h3 : applySeedVariables (JsVal.arr []) [] = JsVal.arr [] := by
    rw [applySeedVariables, applySeedVariablesList]
  have hdr : defaultRun qoutW envW penvW optsW seedW = ([], Except.ok ()) := by
    unfold defaultRun
    simp only [seedW, Option.getD_some, Option.getD_none]
    rw [h2, h3]
    rfl
  have hde : dbEntryRun qoutW envW penvW optsW [] ("d", JsVal.obj []) =
      ([], Except.ok ()) := by
    unfold dbEntryRun
    simp only [sLift_ok, sBind_sOk,
      show jsGet ([] : List (String × JsVal)) "db" = JsVal.undef from rfl,
      show jsGet ([] : List (String × JsVal)) "target" = JsVal.undef from rfl,
      show jsGet ([] : List (String × JsVal)) "variables" = JsVal.undef from rfl,
      show jsGet ([] : List (String × JsVal)) "tables" = JsVal.undef from rfl,
      show jsGet ([] : List (String × JsVal)) "operations" = JsVal.undef from rfl,
      show spreadMerge [] [] = ([] : List (String × JsVal)) from rfl]
    rw [h1, h3]
    rfl
  constructor
  · have h := c3_seed_sequencing.1 qoutW envW penvW optsW seedW [("d", JsVal.obj [])]
      rfl rfl rfl (by rw [hdr])
    rw [h, hdr]
    rw [sForIn_cons, show seedW.variablesJs = [] from rfl]
    rw [hde]
    rfl
  · exact (c3_seed_sequencing.2.2.2.2 (fun _ => sOk ()) JsVal.null [] rfl).trans rfl

/-! ## Call-propagation lemmas (which runtime/database each call targets) -/

theorem sLift_fst {α : Type} (r : Except String α) : (sLift r).1 = [] := by
  cases r <;> rfl

theorem sBind_forall {α β : Type} {P : PsqlCall → Prop} {m : SRes α} {f : α → SRes β}
    (hm : ∀ c ∈ m.1, P c) (hf : ∀ a, ∀ c ∈ (f a).1, P c) :
    ∀ c ∈ (sBind m f).1, P c := by
  obtain ⟨t, r⟩ := m
  cases r with
  | error e => exact hm
  | ok a =>
    intro c hc
    simp only [sBind] at hc
    rcases List.mem_append.mp hc with h | h
    · exact hm c h
    · exact hf a c h

theorem sForIn_forall {α : Type} {P : PsqlCall → Prop} {xs : List α} {f : α → SRes Unit}
    (h : ∀ x ∈ xs, ∀ c ∈ (f x).1, P c) : ∀ c ∈ (sForIn xs f).1, P c := by
  induction xs with
  | nil => intro c hc; cases hc
  | cons x rest ih =>
    rw [sForIn_cons]
    exact sBind_forall (h x (by simp)) (fun _ => ih (fun y hy => h y (by simp [hy])))

theorem sFoldl_forall {α β : Type} {P : PsqlCall → Prop} {xs : List α} {b : β}
    {f : β → α → SRes β} (h : ∀ b2 x, ∀ c ∈ (f b2 x).1, P c) :
    ∀ c ∈ (sFoldl xs b f).1, P c := by
  induction xs generalizing b with
  | nil => intro c hc; cases hc
  | cons x rest ih => exact sBind_forall (h b x) (fun b2 => ih)

theorem resolveSeedRef_calls (qout : QueryOut) (rt : PostgresRuntime) (db : String)
    (rfs : List (String × JsVal)) :
    ∀ c ∈ (resolveSeedRef qout rt db rfs).1, c.runtime = rt ∧ c.db = db := by
  unfold resolveSeedRef
  refine sBind_forall (fun c hc => ?_) (fun column => ?_)
  · rw [sLift_fst] at hc; cases hc
  · refine sBind_forall (fun c hc => ?_) (fun whereFields => ?_)
    · rw [sLift_fst] at hc; cases hc
    · refine sBind_forall (fun c hc => ?_) (fun table => ?_)
      · rw [sLift_fst] at hc; cases hc
      · refine sBind_forall (fun c hc => ?_) (fun clauses => ?_)
        · rw [sLift_fst] at hc; cases hc
        · refine sBind_forall (fun c hc => ?_) (fun u c hc => ?_)
          · have := List.mem_singleton.mp hc
            subst this
            exact ⟨rfl, rfl⟩
          · rw [sLift_fst] at hc; cases hc

theorem resolveSeedRow_calls (qout : QueryOut) (rt : PostgresRuntime) (db : String)
    (row : List (String × JsVal)) :
    ∀ c ∈ (resolveSeedRow qout rt db row).1, c.runtime = rt ∧ c.db = db := by
  unfold resolveSeedRow
  refine sFoldl_forall ?_
  intro acc kv
  split
  · split
    · split
      · exact sBind_forall (resolveSeedRef_calls qout rt db _)
          (fun rv c hc => absurd hc (List.not_mem_nil c))
      · intro c hc; cases hc
    · intro c hc; cases hc
  · intro c hc; cases hc

theorem applyTableSeed_calls (qout : QueryOut) (rt : PostgresRuntime) (db : String)
    (table : String) (cfg : JsVal) :
    ∀ c ∈ (applyTableSeed qout rt db table cfg).1, c.runtime = rt ∧ c.db = db := by
  unfold applyTableSeed
  refine sBind_forall (fun c hc => ?_) (fun rows => ?_)
  · rw [sLift_fst] at hc; cases hc
  · split
    · intro c hc; cases hc
    · refine sBind_forall (fun c hc => ?_) (fun action => ?_)
      · rw [sLift_fst] at hc; cases hc
      · refine sBind_forall (fun c hc => ?_) (fun upsertBy => ?_)
        · rw [sLift_fst] at hc; cases hc
        · refine sForIn_forall ?_
          intro rowJs _
          split
          · refine sBind_forall (resolveSeedRow_calls qout rt db _) (fun rr => ?_)
            refine sBind_forall (fun c hc => ?_) (fun sql c hc => ?_)
            · rw [sLift_fst] at hc; cases hc
            · have := List.mem_singleton.mp hc
              subst this
              exact ⟨rfl, rfl⟩
          · intro c hc; cases hc

theorem applySeedOperation_calls (qout : QueryOut) (rt : PostgresRuntime) (db : String)
    (opJs : JsVal) :
    ∀ c ∈ (applySeedOperation qout rt db opJs).1, c.runtime = rt ∧ c.db = db := by
  unfold applySeedOperation
  split
  · split
    · intro c hc; cases hc
    · split
      · split
        · refine sBind_forall (fun c hc => ?_) (fun rows => ?_)
          · rw [sLift_fst] at hc; cases hc
          · split
            · intro c hc; cases hc
            · refine sBind_forall (fun c hc => ?_) (fun upsertBy => ?_)
              · rw [sLift_fst] at hc; cases hc
              · refine sBind_forall (fun c hc => ?_) (fun table => ?_)
                · rw [sLift_fst] at hc; cases hc
                · refine sForIn_forall ?_
                  intro rowJs _
                  split
                  · refine sBind_forall (resolveSeedRow_calls qout rt db _) (fun rr => ?_)
                    refine sBind_forall (fun c hc => ?_) (fun sql c hc => ?_)
                    · rw [sLift_fst] at hc; cases hc
                    · have := List.mem_singleton.mp hc
                      subst this
                      exact ⟨rfl, rfl⟩
                  · intro c hc; cases hc
        · split
          · split
            · intro c hc; cases hc
            · split
              · refine sBind_forall (resolveSeedRow_calls qout rt db _) (fun rw1 => ?_)
                refine sBind_forall (resolveSeedRow_calls qout rt db _) (fun rs => ?_)
                refine sBind_forall (fun c hc => ?_) (fun table => ?_)
                · rw [sLift_fst] at hc; cases hc
                · refine sBind_forall (fun c hc => ?_) (fun sql c hc => ?_)
                  · rw [sLift_fst] at hc; cases hc
                  · have := List.mem_singleton.mp hc
                    subst this
                    exact ⟨rfl, rfl⟩
              · intro c hc; cases hc
          · split
            · split
              · intro c hc; cases hc
              · split
                · refine sBind_forall (resolveSeedRow_calls qout rt db _) (fun rw1 => ?_)
                  refine sBind_forall (fun c hc => ?_) (fun table => ?_)
                  · rw [sLift_fst] at hc; cases hc
                  · refine sBind_forall (fun c hc => ?_) (fun sql c hc => ?_)
                    · rw [sLift_fst] at hc; cases hc
                    · have := List.mem_singleton.mp hc
                      subst this
                      exact ⟨rfl, rfl⟩
                · intro c hc; cases hc
            · intro c hc; cases hc
      · intro c hc; cases hc
  · intro c hc; cases hc

theorem applyYamlSeedForDatabase_calls (qout : QueryOut) (rt : PostgresRuntime)
    (db : String) (tables : List (String × JsVal)) (ops : List JsVal) :
    ∀ c ∈ (applyYamlSeedForDatabase qout rt db tables ops).1,
      c.runtime = rt ∧ c.db = db := by
  unfold applyYamlSeedForDatabase
  split
  · intro c hc; cases hc
  · refine sBind_forall ?_ (fun u => ?_)
    · split
      · intro c hc; cases hc
      · exact sForIn_forall (fun tc _ => applyTableSeed_calls qout rt db tc.1 tc.2)
    · split
      · intro c hc; cases hc
      · exact sForIn_forall (fun op _ => applySeedOperation_calls qout rt db op)

/-- Reading a key from a JS spread `{...g, ...e}`: the per-entry value of
`e` overrides `g`, keys absent from `e` fall back to `g`. -/
theorem spreadMerge_get (g e : List (String × JsVal)) (k : String) :
    jsGet (spreadMerge g e) k =
      if (e.find? (fun p => p.1 == k)).isSome then jsGet e k else jsGet g k := by
  have hFfst : ((fun p : String × JsVal => p.1 == k) ∘
      (fun kv : String × JsVal =>
        match e.find? (fun p => p.1 == kv.1) with
        | some p => (kv.1, p.2)
        | none => kv)) = (fun q : String × JsVal => q.1 == k) := by
    funext q
    simp only [Function.comp]
    cases e.find? (fun p => p.1 == q.1) <;> rfl
  unfold spreadMerge jsGet
  rw [List.find?_append, List.find?_map, hFfst]
  cases hg : g.find? (fun q => q.1 == k) with
  | some pg =>
    have hpk : pg.1 = k := by
      have := List.find?_some hg
      simpa using this
    rw [Option.map_some', Option.or_some]
    cases he : e.find? (fun p => p.1 == k) with
    | some pe =>
      simp only [hpk, he, Option.isSome_some, if_true, jsGet]
    | none =>
      simp only [hpk, he, Option.isSome_none, Bool.false_eq_true, if_false, jsGet, hg]
  | none =>
    rw [Option.map_none', Option.none_or]
    clear hFfst
    have hfilter : (e.filter
        (fun p => (g.find? (fun q => q.1 == p.1)).isNone)).find?
          (fun p => p.1 == k) = e.find? (fun p => p.1 == k) := by
      induction e with
      | nil => rfl
      | cons x xs ih =>
        by_cases hx : (x.1 == k) = true
        · have hx1 : x.1 = k := by simpa using hx
          rw [List.filter_cons,
            show ((g.find? (fun q => q.1 == x.1)).isNone) = true by rw [hx1, hg]; rfl,
            if_pos rfl,
            @List.find?_cons_of_pos _ (fun p => p.1 == k) x _ hx,
            @List.find?_cons_of_pos _ (fun p => p.1 == k) x _ hx]
        · rw [List.filter_cons]
          by_cases hkeep : ((g.find? (fun q => q.1 == x.1)).isNone) = true
          · rw [if_pos hkeep,
              @List.find?_cons_of_neg _ (fun p => p.1 == k) x _ hx,
              @List.find?_cons_of_neg _ (fun p => p.1 == k) x _ hx, ih]
          · rw [if_neg hkeep, ih,
              @List.find?_cons_of_neg _ (fun p => p.1 == k) x _ hx]
    rw [hfilter]
    cases he : e.find? (fun p => p.1 == k) with
    | some pe => simp only [he, Option.isSome_some, if_true, jsGet]
    | none =>
      simp only [he, Option.isSome_none, Bool.false_eq_true, if_false, jsGet, hg]

/-- C5: each `databases` entry is applied to that entry's database (its
`db` field, defaulting to the entry key) with a runtime resolved for the
entry's target (its `target` field, defaulting to the entry key), the
payload interpolated with the spread-merge of the global variables and the
entry's own variables; every psql call of a scope goes to that scope's
runtime and database; and the merge lets a per-database variable override
the global one while unrelated keys fall back to the globals.  The
per-entry run is a function of the globals and that one entry only. -/
theorem c5_database_scoping :
    (∀ (qout : QueryOut) (env : EnvConfig) (penv : ProcessEnv) (opts : SeedYamlOptions)
       (g : List (String × JsVal)) (key : String) (cfgFs : List (String × JsVal))
       (dbName target : String),
      (((jsGet cfgFs "db" = JsVal.undef ∨ jsGet cfgFs "db" = JsVal.null) ∧ dbName = key) ∨
        jsGet cfgFs "db" = JsVal.str dbName) →
      (((jsGet cfgFs "target" = JsVal.undef ∨ jsGet cfgFs "target" = JsVal.null) ∧
          target = key) ∨
        jsGet cfgFs "target" = JsVal.str target) →
      dbEntryRun qout env penv opts g (key, .obj cfgFs) =
        applyYamlSeedForDatabase qout
          (resolvePostgresRuntime env penv
            { service := opts.service, user := opts.user, composeDir := opts.composeDir,
              target := some target, adminDb := none } (some target))
          dbName
          (match applySeedVariables
              (match jsGet cfgFs "tables" with
               | JsVal.null => JsVal.obj []
               | JsVal.undef => JsVal.obj []
               | v => v)
              (spreadMerge g
                (match jsGet cfgFs "variables" with
                 | JsVal.obj vs => vs
                 | _ => [])) with
           | JsVal.obj fs => fs
           | _ => [])
          (match applySeedVariables
              (match jsGet cfgFs "operations" with
               | JsVal.null => JsVal.arr []
               | JsVal.undef => JsVal.arr []
               | v => v)
              (spreadMerge g
                (match jsGet cfgFs "variables" with
                 | JsVal.obj vs => vs
                 | _ => [])) with
           | JsVal.arr xs => xs
           | _ => [])) ∧
    (∀ (qout : QueryOut) (rt : PostgresRuntime) (db : String)
       (tables : List (String × JsVal)) (ops : List JsVal),
      ∀ c ∈ (applyYamlSeedForDatabase qout rt db tables ops).1,
        c.runtime = rt ∧ c.db = db) ∧
    (∀ (g e : List (String × JsVal)) (k : String),
      jsGet (spreadMerge g e) k =
        if (e.find? (fun p => p.1 == k)).isSome then jsGet e k else jsGet g k) := by
  refine ⟨?_, applyYamlSeedForDatabase_calls, spreadMerge_get⟩
  intro qout env penv opts g key cfgFs dbName target hdb htg
  have hdbq : (match jsGet cfgFs "db" with
      | JsVal.null => Except.ok key
      | JsVal.undef => Except.ok key
      | JsVal.str s => Except.ok s
      | _ => Except.error "Database name must be a string.") = Except.ok dbName := by
    rcases hdb with ⟨hu, hid⟩ | hs
    · rcases hu with hu | hu <;> rw [hu, hid]
    · rw [hs]
  have htgq : (match jsGet cfgFs "target" with
      | JsVal.null => Except.ok key
      | JsVal.undef => Except.ok key
      | JsVal.str s => Except.ok s
      | _ => Except.error "Database target must be a string.") = Except.ok target := by
    rcases htg with ⟨hu, hid⟩ | hs
    · rcases hu with hu | hu <;> rw [hu, hid]
    · rw [hs]
  simp only [dbEntryRun]
  rw [hdbq, htgq]
  simp only [sLift_ok, sBind_sOk]

theorem c5_database_scoping_witness :
    dbEntryRun qoutW envW penvW optsW [("v", JsVal.num 1)]
      ("k", JsVal.obj [("db", JsVal.str "mydb"), ("target", JsVal.str "t1")]) =
      applyYamlSeedForDatabase qoutW
        (resolvePostgresRuntime envW penvW
          { service := optsW.service, user := optsW.user, composeDir := optsW.composeDir,
            target := some "t1", adminDb := none } (some "t1"))
        "mydb"
        (match applySeedVariables (JsVal.obj [])
            (spreadMerge [("v", JsVal.num 1)] []) with
         | JsVal.obj fs => fs
         | _ => [])
        (match applySeedVariables (JsVal.arr [])
            (spreadMerge [("v", JsVal.num 1)] []) with
         | JsVal.arr xs => xs
         | _ => []) :=
  c5_database_scoping.1 qoutW envW penvW optsW [("v", JsVal.num 1)] "k"
    [("db", JsVal.str "mydb"), ("target", JsVal.str "t1")] "mydb" "t1"
    (Or.inr rfl) (Or.inr rfl)

/-! ## Mock-server template lemmas -/

theorem applyTemplateList_eq (xs : List JsVal) (ctx : JsVal) :
    applyTemplateList xs ctx = xs.map (fun x => applyTemplate x ctx) := by
  induction xs with
  | nil => rfl
  | cons x rest ih => rw [applyTemplateList, ih, List.map_cons]

theorem applyTemplateFields_eq (fs : List (String × JsVal)) (ctx : JsVal) :
    applyTemplateFields fs ctx = fs.map (fun kv => (kv.1, applyTemplate kv.2 ctx)) := by
  induction fs with
  | nil => rfl
  | cons kv rest ih => rw [applyTemplateFields, ih, List.map_cons]

theorem interpolateChars_match {ctx : JsVal} {cs : List Char} {kr : String × List Char}
    (h : matchTpl cs = some kr) :
    interpolateChars ctx cs = (renderTpl ctx kr.1).data ++ interpolateChars ctx kr.2 := by
  rw [interpolateChars.eq_def]
  split
  · rename_i kr2 heq
    rw [h] at heq
    injection heq with hk
    subst hk
    rfl
  · rename_i heq
    rw [h] at heq
    cases heq

theorem interpolateChars_nil (ctx : JsVal) : interpolateChars ctx [] = [] := by
  rw [interpolateChars.eq_def]
  split
  · rename_i kr2 heq
    rw [show matchTpl [] = none from rfl] at heq
    cases heq
  · rfl

theorem interpolateChars_copy {ctx : JsVal} {c : Char} {rest : List Char}
    (h : matchTpl (c :: rest) = none) :
    interpolateChars ctx (c :: rest) = c :: interpolateChars ctx rest := by
  rw [interpolateChars.eq_def]
  split
  · rename_i kr2 heq
    rw [h] at heq
    cases heq
  · rfl

/-- C6 counterexample: the placeholder `\x7b\x7b a \x7d\x7d` (a space
before the closing braces, exactly the form the claim displays) does not
resolve the path `a`: the greedy capture keeps the trailing space inside
the token, so the lookup misses and the replacement is the empty string,
even though the path `a` resolves to the defined value `1` whose `String()`
rendering is `"1"`, not `""`. -/
theorem c6_interpolation_counterexample :
    interpolateString (JsVal.obj [("a", JsVal.num 1)]) "\x7b\x7b a \x7d\x7d" = "" ∧
    lookupTplPath (JsVal.obj [("a", JsVal.num 1)]) "a" = JsVal.num 1 ∧
    jsToString (JsVal.num 1) = "1" ∧ ("1" : String) ≠ "" := by
  refine ⟨?_, rfl, ?_, by decide⟩
  · unfold interpolateString
    rw [@interpolateChars_match (JsVal.obj [("a", JsVal.num 1)])
      ("\x7b\x7b a \x7d\x7d".data) ("a ", []) rfl]
    rw [interpolateChars_nil]
    rfl
  · rw [jsToString.eq_def]
    decide

/-- C6 (amended): `applyTemplate` recurses through arrays and objects,
interpolating strings to strings and keeping other leaves; each
`\x7b\x7b ... \x7d\x7d` occurrence is replaced by the `String()` rendering
of the value reached by the dot-separated captured token (undefined gives
the empty string), where the token skips the whitespace after the opening
braces but keeps any whitespace before the closing braces as part of the
final path segment (so only placeholders without such trailing whitespace
resolve the written path). -/
theorem c6_applyTemplate_amended :
    (∀ (ctx : JsVal) (s : String),
      applyTemplate (.str s) ctx = .str (interpolateString ctx s)) ∧
    (∀ (ctx : JsVal) (xs : List JsVal),
      applyTemplate (.arr xs) ctx = .arr (xs.map (fun x => applyTemplate x ctx))) ∧
    (∀ (ctx : JsVal) (fs : List (String × JsVal)),
      applyTemplate (.obj fs) ctx =
        .obj (fs.map (fun kv => (kv.1, applyTemplate kv.2 ctx)))) ∧
    (∀ ctx : JsVal,
      applyTemplate .null ctx = .null ∧
      applyTemplate .undef ctx = .undef ∧
      (∀ i, applyTemplate (.num i) ctx = .num i) ∧
      (∀ r, applyTemplate (.numNF r) ctx = .numNF r) ∧
      (∀ i, applyTemplate (.bigint i) ctx = .bigint i) ∧
      (∀ b, applyTemplate (.bool b) ctx = .bool b) ∧
      (∀ d, applyTemplate (.date d) ctx = .date d)) ∧
    (∀ (ctx : JsVal) (cs : List Char) (kr : String × List Char),
      matchTpl cs = some kr →
      interpolateChars ctx cs =
        (match lookupTplPath ctx kr.1 with
         | JsVal.undef => ""
         | v => jsToString v).data ++ interpolateChars ctx kr.2) ∧
    (∀ (ctx : JsVal) (c : Char) (rest : List Char),
      matchTpl (c :: rest) = none →
      interpolateChars ctx (c :: rest) = c :: interpolateChars ctx rest) ∧
    (∀ ctx : JsVal, interpolateChars ctx [] = []) := by
  refine ⟨fun ctx s => by rw [applyTemplate],
    fun ctx xs => by rw [applyTemplate, applyTemplateList_eq],
    fun ctx fs => by rw [applyTemplate, applyTemplateFields_eq],
    fun ctx => ⟨rfl, rfl, fun i => rfl, fun r => rfl, fun i => rfl, fun b => rfl,
      fun d => rfl⟩,
    fun ctx cs kr h => interpolateChars_match h,
    fun ctx c rest h => interpolateChars_copy h,
    interpolateChars_nil⟩

theorem c6_applyTemplate_amended_witness :
    applyTemplate (.str "id=\x7b\x7bparams.id\x7d\x7d")
      (JsVal.obj [("params", JsVal.obj [("id", JsVal.num 7)])]) = JsVal.str "id=7" := by
  rw [c6_applyTemplate_amended.1]
  unfold interpolateString
  rw [show "id=\x7b\x7bparams.id\x7d\x7d".data =
    'i' :: 'd' :: '=' :: "\x7b\x7bparams.id\x7d\x7d".data from rfl]
  rw [c6_applyTemplate_amended.2.2.2.2.2.1 _ 'i' _ rfl]
  rw [c6_applyTemplate_amended.2.2.2.2.2.1 _ 'd' _ rfl]
  rw [c6_applyTemplate_amended.2.2.2.2.2.1 _ '=' _ rfl]
  rw [c6_applyTemplate_amended.2.2.2.2.1 _ ("\x7b\x7bparams.id\x7d\x7d".data)
    ("params.id", []) rfl]
  rw [c6_applyTemplate_amended.2.2.2.2.2.2]
  have hv : (match lookupTplPath (JsVal.obj [("params", JsVal.obj [("id", JsVal.num 7)])])
      (("params.id", ([] : List Char))).1 with
      | JsVal.undef => ""
      | v => jsToString v) = "7" := by
    show jsToString (JsVal.num 7) = "7"
    rw [jsToString.eq_def]
    decide
  rw [hv]
  rfl

/-- C7: the hot-reload poller rebuilds exactly when the resources
fingerprint differs from the recorded one: over any run of ticks whose
observed fingerprint equals the recorded one, the state is unchanged and
no reload happens; a differing fingerprint triggers `reloadResources`;
a failed reload keeps the previous state and fingerprint (and
`reloadResources` itself — also reachable via `POST /virtual/reload` —
does not consult the fingerprint); and the fingerprint is the sorted
`|`-joined `path:mtimeMs:size` rendering of every `.yaml`/`.yml` file
under the resources root. -/
theorem c7_hot_reload :
    (∀ (s : ServerState) (ticks : List (Option Nat × String × String)),
      (∀ t ∈ ticks, t.2.1 = s.lastFp) →
      runTicks s ticks = (s, ticks.map (fun _ => false))) ∧
    (∀ (build : Option Nat) (fpNow fpAfter : String) (s : ServerState),
      fpNow ≠ s.lastFp →
      pollTick build fpNow fpAfter s = reloadResources build fpAfter s) ∧
    (∀ (build : Option Nat) (fpNow fpAfter : String) (s : ServerState),
      fpNow = s.lastFp → pollTick build fpNow fpAfter s = (s, false)) ∧
    (∀ (fpAfter : String) (s : ServerState),
      reloadResources none fpAfter s = (s, false)) ∧
    (∀ (n : Nat) (fpAfter : String) (s : ServerState),
      reloadResources (some n) fpAfter s = ({ stateId := n, lastFp := fpAfter }, true)) ∧
    (∀ snap : FsSnapshot,
      fingerprintResources snap =
        String.intercalate "|"
          (sortStrings ((collectYamlFiles snap).map (fun f =>
            if f.2.2.2 then f.1 ++ ":" ++ toString f.2.1 ++ ":" ++ toString f.2.2.1
            else "")))) ∧
    (∀ (dirPath name : String) (mt sz : Int) (ok : Bool),
      collectYamlEntry dirPath (.file name mt sz ok) =
        (if strEndsWith name ".yaml" || strEndsWith name ".yml" then
          [(dirPath ++ "/" ++ name, (mt, sz, ok))]
        else [])) ∧
    (∀ (dirPath name : String) (es : List FsEntry),
      collectYamlEntry dirPath (.dir name es) =
        collectYamlList (dirPath ++ "/" ++ name) es) := by
  refine ⟨?_, ?_, ?_, fun fpAfter s => rfl, fun n fpAfter s => rfl, fun snap => rfl,
    fun dirPath name mt sz ok => rfl, fun dirPath name es => rfl⟩
  · intro s ticks h
    induction ticks with
    | nil => rfl
    | cons t rest ih =>
      have h1 : t.2.1 = s.lastFp := h t (by simp)
      rw [runTicks]
      rw [show pollTick t.1 t.2.1 t.2.2 s = (s, false) from by
        unfold pollTick
        rw [if_neg (by rw [h1]; exact fun hne => hne rfl)]]
      rw [ih (fun y hy => h y (by simp [hy]))]
      rfl
  · intro build fpNow fpAfter s hne
    unfold pollTick
    rw [if_pos hne]
  · intro build fpNow fpAfter s heq
    unfold pollTick
    rw [if_neg (by rw [heq]; exact fun hne => hne rfl)]

theorem c7_hot_reload_witness :
    runTicks { stateId := 1, lastFp := "f" } [(some 2, "f", "f"), (none, "f", "f")] =
      ({ stateId := 1, lastFp := "f" }, [false, false]) ∧
    pollTick (some 2) "g" "g" { stateId := 1, lastFp := "f" } =
      ({ stateId := 2, lastFp := "g" }, true) ∧
    pollTick none "g" "g" { stateId := 1, lastFp := "f" } =
      ({ stateId := 1, lastFp := "f" }, false) := by
  refine ⟨?_, ?_, ?_⟩
  · exact c7_hot_reload.1 { stateId := 1, lastFp := "f" }
      [(some 2, "f", "f"), (none, "f", "f")] (by decide)
  · exact (c7_hot_reload.2.1 (some 2) "g" "g" { stateId := 1, lastFp := "f" }
      (by decide)).trans rfl
  · exact (c7_hot_reload.2.1 none "g" "g" { stateId := 1, lastFp := "f" }
      (by decide)).trans rfl

/-- C9: `normalizeBulkPayload` keeps one output line per non-blank input
line (blank lines dropped, unparseable lines passed through byte-for-byte)
and ends the payload with exactly one appended newline; with `dynamicIds`
the `_id` field is removed from single-action bulk-meta lines only (the
non-meta equations do not mention `dynamicIds`); with `dynamicTimestamps`
the k-th non-meta JSON-object document is stamped with
`createdAt`/`updatedAt` at `baseMs + k*1000` — exactly one second apart. -/
theorem c9_normalizeBulkPayload (jsonParse : String → Option JsVal)
    (isoAt : Int → String) (baseMs : Int) (dynamicIds dynamicTimestamps : Bool)
    (indexOverride : Option String) :
    (∀ (lines : List String) (idx : Nat),
      (nbpLines jsonParse isoAt baseMs dynamicIds dynamicTimestamps indexOverride
        lines idx).length = (lines.filter (fun l => ¬ jsTrim l = "")).length) ∧
    (∀ raw : String,
      (normalizeBulkPayload jsonParse isoAt baseMs raw dynamicIds dynamicTimestamps
        indexOverride).data =
      (String.intercalate "\n"
        (nbpLines jsonParse isoAt baseMs dynamicIds dynamicTimestamps indexOverride
          (splitChar '\n' raw) 0)).data ++ ['\n']) ∧
    (∀ (line : String) (rest : List String) (idx : Nat),
      jsTrim line = "" →
      nbpLines jsonParse isoAt baseMs dynamicIds dynamicTimestamps indexOverride
          (line :: rest) idx =
        nbpLines jsonParse isoAt baseMs dynamicIds dynamicTimestamps indexOverride
          rest idx) ∧
    (∀ (line : String) (rest : List String) (idx : Nat),
      ¬ jsTrim line = "" → jsonParse line = none →
      nbpLines jsonParse isoAt baseMs dynamicIds dynamicTimestamps indexOverride
          (line :: rest) idx =
        line :: nbpLines jsonParse isoAt baseMs dynamicIds dynamicTimestamps
          indexOverride rest idx) ∧
    (∀ (line : String) (rest : List String) (idx : Nat) (action : String) (inner : JsVal),
      ¬ jsTrim line = "" →
      jsonParse line = some (.obj [(action, inner)]) →
      isBulkMeta (.obj [(action, inner)]) = true →
      nbpLines jsonParse isoAt baseMs dynamicIds dynamicTimestamps indexOverride
          (line :: rest) idx =
        restringify line
          (.obj [(action, .obj
            (match indexOverride with
             | some o =>
               if o = "" then
                 (if dynamicIds then objDelete (jsSpread inner) "_id" else jsSpread inner)
               else
                 objSet
                   (if dynamicIds then objDelete (jsSpread inner) "_id" else jsSpread inner)
                   "_index" (.str o)
             | none =>
               (if dynamicIds then objDelete (jsSpread inner) "_id"
                else jsSpread inner)))]) ::
          nbpLines jsonParse isoAt baseMs dynamicIds dynamicTimestamps indexOverride
            rest idx) ∧
    (∀ (line : String) (rest : List String) (idx : Nat) (fs : List (String × JsVal)),
      ¬ jsTrim line = "" →
      jsonParse line = some (.obj fs) →
      isBulkMeta (.obj fs) = false →
      dynamicTimestamps = true →
      nbpLines jsonParse isoAt baseMs dynamicIds dynamicTimestamps indexOverride
          (line :: rest) idx =
        restringify line
          (.obj (objSet (objSet fs "createdAt" (.str (isoAt (baseMs + idx * 1000))))
            "updatedAt" (.str (isoAt (baseMs + idx * 1000))))) ::
          nbpLines jsonParse isoAt baseMs dynamicIds dynamicTimestamps indexOverride
            rest (idx + 1)) ∧
    (∀ (line : String) (rest : List String) (idx : Nat) (fs : List (String × JsVal)),
      ¬ jsTrim line = "" →
      jsonParse line = some (.obj fs) →
      isBulkMeta (.obj fs) = false →
      dynamicTimestamps = false →
      nbpLines jsonParse isoAt baseMs dynamicIds dynamicTimestamps indexOverride
          (line :: rest) idx =
        restringify line (.obj fs) ::
          nbpLines jsonParse isoAt baseMs dynamicIds dynamicTimestamps indexOverride
            rest idx) := by
  refine ⟨?_, ?_, ?_, ?_, ?_, ?_, ?_⟩
  · intro lines
    induction lines with
    | nil => intro idx; rfl
    | cons l rest ih =>
      intro idx
      rw [nbpLines, List.filter_cons]
      by_cases ht : jsTrim l = ""
      · simp only [ht, if_pos rfl, decide_not]
        simp [ih]
      · simp only [ht, decide_not]
        cases hp : jsonParse l with
        | none => simp [ht, ih]
        | some doc =>
          by_cases hm : isBulkMeta doc = true
          · simp [hm, ht, ih]
          · cases doc with
            | obj fs =>
              cases dynamicTimestamps <;> simp [hm, ht, ih]
            | arr xs => cases dynamicTimestamps <;> simp [hm, ht, ih]
            | null => simp [hm, ht, ih]
            | undef => simp [hm, ht, ih]
            | num i => simp [hm, ht, ih]
            | numNF r => simp [hm, ht, ih]
            | bigint i => simp [hm, ht, ih]
            | bool b => simp [hm, ht, ih]
            | str s => simp [hm, ht, ih]
            | date d => simp [hm, ht, ih]
  · intro raw
    unfold normalizeBulkPayload
    rw [String.data_append]
  · intro line rest idx ht
    rw [nbpLines, if_pos ht]
  · intro line rest idx ht hp
    rw [nbpLines, if_neg ht, hp]
  · intro line rest idx action inner ht hp hm
    rw [nbpLines, if_neg ht, hp]
    simp only [hm, if_true]
  · intro line rest idx fs ht hp hm hts
    rw [nbpLines, if_neg ht, hp]
    simp only [hm, Bool.false_eq_true, if_false, hts, if_true]
  · intro line rest idx fs ht hp hm hts
    rw [nbpLines, if_neg ht, hp]
    simp only [hm, Bool.false_eq_true, if_false, hts]

theorem c9_normalizeBulkPayload_witness :
    normalizeBulkPayload (fun _ => none) (fun n => "T" ++ toString n) 0
      "\nnope" false true none = "nope\n" ∧
    jsTrim "" = "" ∧ ¬ jsTrim "nope" = "" := by
  refine ⟨?_, rfl, by decide⟩
  have h2 := (c9_normalizeBulkPayload (fun _ => none)
      (fun n => "T" ++ toString n) 0 false true none).2.1 "\nnope"
  have h0 := (c9_normalizeBulkPayload (fun _ => none)
      (fun n => "T" ++ toString n) 0 false true none).2.2.1 "" ["nope"] 0 rfl
  have h3 := (c9_normalizeBulkPayload (fun _ => none)
      (fun n => "T" ++ toString n) 0 false true none).2.2.2.1 "nope" [] 0
      (by decide) rfl
  apply String.ext
  rw [h2]
  rw [show splitChar '\n' "\nnope" = "" :: ["nope"] from rfl]
  rw [h0, h3]
  rfl

/-! ## Parties-reset invariant machinery -/

theorem updFst (k : String) (v : Nat) (p : String × Nat) :
    ((if p.1 == k then (p.1, v) else p) : String × Nat).1 = p.1 := by
  by_cases h : (p.1 == k) = true <;> simp [h]

theorem updComp (k k2 : String) (v : Nat) :
    ((fun p : String × Nat => p.1 == k2) ∘
      (fun p : String × Nat => if p.1 == k then (p.1, v) else p)) =
    (fun p : String × Nat => p.1 == k2) := by
  funext q
  by_cases h : (q.1 == k) = true <;> simp [Function.comp, h]

theorem countGet_countSet_self (m : List (String × Nat)) (k : String) (v : Nat) :
    countGet (countSet m k v) k = v := by
  unfold countSet countGet
  by_cases hf : (m.find? (fun p => p.1 == k)).isSome = true
  · rw [if_pos hf, List.find?_map, updComp k k v]
    obtain ⟨p0, hp0⟩ := Option.isSome_iff_exists.mp hf
    rw [hp0]
    have hkey := @List.find?_some (String × Nat) (fun p => p.1 == k) p0 m hp0
    simp only at hkey
    have hk2 : p0.1 = k := by simpa using hkey
    simp [Option.map_some', hk2]
  · rw [if_neg hf, List.find?_append]
    have hnone : m.find? (fun p => p.1 == k) = none := by
      cases hq : m.find? (fun p => p.1 == k)
      · rfl
      · rw [hq] at hf; simp at hf
    rw [hnone, Option.none_or]
    simp [List.find?]

theorem countGet_countSet_ne (m : List (String × Nat)) (k k2 : String) (v : Nat)
    (h : (k2 == k) = false) : countGet (countSet m k v) k2 = countGet m k2 := by
  unfold countSet countGet
  by_cases hf : (m.find? (fun p => p.1 == k)).isSome = true
  · rw [if_pos hf, List.find?_map, updComp k k2 v]
    cases hq : m.find? (fun p => p.1 == k2) with
    | none => rfl
    | some q =>
      have hkey := @List.find?_some (String × Nat) (fun p => p.1 == k2) q m hq
      simp only at hkey
      have hq2 : q.1 = k2 := by simpa using hkey
      have hqk : ¬ (q.1 = k) := by
        intro hcontra
        rw [hq2] at hcontra
        rw [hcontra] at h
        simp at h
      simp [Option.map_some', hqk]
  · rw [if_neg hf, List.find?_append]
    have hkk2 : (k == k2) = false := by
      cases hr : (k == k2)
      · rfl
      · have hkeq : k = k2 := by simpa using hr
        rw [hkeq] at h
        simp at h
    have hkv : (([(k, v)] : List (String × Nat)).find? (fun p => p.1 == k2)) = none := by
      simp [List.find?, hkk2]
    rw [hkv]
    cases m.find? (fun p => p.1 == k2) <;> rfl


/-! ## Parties-reset: leaves-first invariant -/


def leftOf (parties : List Party) (dIds deleted : List String) (pid : String) : List String :=
  (childIds parties pid).filter (fun c => dIds.contains c && !(deleted.contains c))

structure ResetInv (parties : List Party) (dIds : List String) (st : ResetState) : Prop where
  deletedNodup : st.deleted.Nodup
  deletedDone : ∀ i ∈ st.deleted, i ∈ st.processed
  deletedDeletable : ∀ i ∈ st.deleted, i ∈ dIds
  stackDeletable : ∀ i ∈ st.stack, i ∈ dIds
  stackCountZero : ∀ i ∈ st.stack, countGet st.counts i = 0
  countsCorrect : ∀ pid ∈ dIds,
      countGet st.counts pid = (leftOf parties dIds st.deleted pid).length
  ordOK : ∀ pr ∈ st.deleted, ∀ c, c ∈ childIds parties pr → c ∈ dIds →
      c ∈ st.deleted ∧ List.indexOf c st.deleted < List.indexOf pr st.deleted

theorem containsAppendSingle (l : List String) (cur c : String) :
    ((l ++ [cur]).contains c) = (l.contains c || c == cur) := by
  by_cases h : c = cur
  · simp [h]
  · have hb : (c == cur) = false := by simpa using h
    simp [hb, h]

theorem andNotOr (d a e : Bool) : (d && !(a || e)) = ((d && !a) && !e) := by
  cases d <;> cases a <;> cases e <;> rfl

theorem filterRemoveLen {l : List String} {Q : String → Bool} {cur : String}
    (hnodup : l.Nodup) (hmem : cur ∈ l) (hQ : Q cur = true) :
    (l.filter (fun c => Q c && !(c == cur))).length + 1 = (l.filter Q).length := by
  induction l with
  | nil => cases hmem
  | cons x xs ih =>
    rw [List.filter_cons, List.filter_cons]
    by_cases hx : x = cur
    · subst hx
      have hnot : x ∉ xs := (List.nodup_cons.mp hnodup).1
      rw [if_neg (by simp), if_pos hQ]
      have hsame : xs.filter (fun c => Q c && !(c == x)) = xs.filter Q := by
        apply List.filter_congr
        intro c hc
        have hne : ¬(c = x) := fun hcx => hnot (hcx ▸ hc)
        simp [hne]
      rw [hsame, List.length_cons]
    · have hmem2 : cur ∈ xs := by
        rcases List.mem_cons.mp hmem with h | h
        · exact absurd h.symm hx
        · exact h
      have hnd2 := (List.nodup_cons.mp hnodup).2
      have hxb : (x == cur) = false := by simpa using hx
      by_cases hqx : Q x = true
      · rw [if_pos (by simp [hqx, hxb]), if_pos hqx, List.length_cons, List.length_cons]
        have := ih hnd2 hmem2
        omega
      · have hqx2 : Q x = false := by simpa using hqx
        rw [if_neg (by simp [hqx2]), if_neg (by simp [hqx2])]
        exact ih hnd2 hmem2

theorem leftOf_append (parties : List Party) (dIds deleted : List String)
    (cur pid : String) :
    leftOf parties dIds (deleted ++ [cur]) pid =
      (childIds parties pid).filter
        (fun c => (dIds.contains c && !(deleted.contains c)) && !(c == cur)) := by
  unfold leftOf
  apply List.filter_congr
  intro c _
  rw [containsAppendSingle, andNotOr]

theorem mem_childIds_elim {parties : List Party} {pid cur : String}
    (h : cur ∈ childIds parties pid) :
    ∃ c ∈ parties, truthyOrg c.orgId = true ∧ c.orgId.getD "" = pid ∧ c.id = cur := by
  unfold childIds at h
  rw [List.mem_dedup] at h
  obtain ⟨c, hc, hid⟩ := List.mem_map.mp h
  obtain ⟨hcp, hpred⟩ := List.mem_filter.mp hc
  have h1 : truthyOrg c.orgId = true ∧ (c.orgId.getD "" == pid) = true := by
    simpa [Bool.and_eq_true] using hpred
  exact ⟨c, hcp, h1.1, by simpa using h1.2, hid⟩

theorem mem_childIds_intro {parties : List Party} {c : Party} {pid : String}
    (hc : c ∈ parties) (ht : truthyOrg c.orgId = true) (hp : c.orgId.getD "" = pid) :
    c.id ∈ childIds parties pid := by
  unfold childIds
  rw [List.mem_dedup]
  exact List.mem_map.mpr ⟨c, List.mem_filter.mpr ⟨hc, by simp [ht, hp]⟩, rfl⟩

theorem partyById_spec {parties : List Party} {cur : String} {party : Party}
    (h : partyById parties cur = some party) : party ∈ parties ∧ party.id = cur := by
  unfold partyById at h
  refine ⟨List.mem_reverse.mp (List.mem_of_find?_eq_some h), ?_⟩
  have := List.find?_some h
  simpa using this

theorem party_id_unique {parties : List Party} (hnd : (parties.map Party.id).Nodup)
    {p q : Party} (hp : p ∈ parties) (hq : q ∈ parties) (h : p.id = q.id) : p = q :=
  List.inj_on_of_nodup_map hnd hp hq h

theorem childIds_unique_parent {parties : List Party}
    (hnd : (parties.map Party.id).Nodup) {party : Party} (hp : party ∈ parties)
    {pid : String} (h : party.id ∈ childIds parties pid) :
    truthyOrg party.orgId = true ∧ party.orgId.getD "" = pid := by
  obtain ⟨c, hc, ht, hgd, hid⟩ := mem_childIds_elim h
  have hcp : c = party := party_id_unique hnd hc hp hid
  subst hcp
  exact ⟨ht, hgd⟩

theorem childIds_nodup (parties : List Party) (pid : String) :
    (childIds parties pid).Nodup := by
  unfold childIds
  exact List.nodup_dedup _

theorem skip_inv {parties : List Party} {dIds : List String} {st : ResetState}
    (hinv : ResetInv parties dIds st) {cur : String} {restQ : List String}
    (hstack : st.stack = cur :: restQ) :
    ResetInv parties dIds { st with stack := restQ } :=
  ⟨hinv.deletedNodup, hinv.deletedDone, hinv.deletedDeletable,
   fun i hi => hinv.stackDeletable i (by rw [hstack]; exact List.mem_cons_of_mem _ hi),
   fun i hi => hinv.stackCountZero i (by rw [hstack]; exact List.mem_cons_of_mem _ hi),
   hinv.countsCorrect, hinv.ordOK⟩

theorem mark_inv {parties : List Party} {dIds : List String} {st : ResetState}
    (hinv : ResetInv parties dIds st) {cur : String} {restQ : List String}
    (hstack : st.stack = cur :: restQ) :
    ResetInv parties dIds
      { st with stack := restQ, processed := st.processed ++ [cur] } :=
  ⟨hinv.deletedNodup,
   fun i hi => List.mem_append_left _ (hinv.deletedDone i hi),
   hinv.deletedDeletable,
   fun i hi => hinv.stackDeletable i (by rw [hstack]; exact List.mem_cons_of_mem _ hi),
   fun i hi => hinv.stackCountZero i (by rw [hstack]; exact List.mem_cons_of_mem _ hi),
   hinv.countsCorrect, hinv.ordOK⟩

theorem deletedFacts {parties : List Party} {dIds : List String} {st : ResetState}
    (hinv : ResetInv parties dIds st) {cur : String} {restQ : List String}
    (hstack : st.stack = cur :: restQ) (hproc : cur ∉ st.processed) :
    cur ∈ dIds ∧ cur ∉ st.deleted ∧
    (∀ c, c ∈ childIds parties cur → c ∈ dIds → c ∈ st.deleted) ∧
    (st.deleted ++ [cur]).Nodup ∧
    (∀ i ∈ st.deleted ++ [cur], i ∈ dIds) ∧
    (∀ i ∈ st.deleted ++ [cur], i ∈ st.processed ++ [cur]) ∧
    (∀ pr ∈ st.deleted ++ [cur], ∀ c, c ∈ childIds parties pr → c ∈ dIds →
       c ∈ st.deleted ++ [cur] ∧
       List.indexOf c (st.deleted ++ [cur]) < List.indexOf pr (st.deleted ++ [cur])) := by
  have hcur_mem : cur ∈ st.stack := by rw [hstack]; exact List.mem_cons_self _ _
  have hcur_dl : cur ∈ dIds := hinv.stackDeletable cur hcur_mem
  have hcur_nd : cur ∉ st.deleted := fun h => hproc (hinv.deletedDone cur h)
  have hcount0 : countGet st.counts cur = 0 := hinv.stackCountZero cur hcur_mem
  have hnil : leftOf parties dIds st.deleted cur = [] := by
    apply List.length_eq_zero.mp
    rw [← hinv.countsCorrect cur hcur_dl]
    exact hcount0
  have hchildren : ∀ c, c ∈ childIds parties cur → c ∈ dIds → c ∈ st.deleted := by
    intro c hc hcd
    by_contra hcnot
    have hcmem : c ∈ leftOf parties dIds st.deleted cur := by
      apply List.mem_filter.mpr
      refine ⟨hc, ?_⟩
      simp [hcd, hcnot]
    rw [hnil] at hcmem
    cases hcmem
  have hnd2 : (st.deleted ++ [cur]).Nodup := by
    simp [List.nodup_append, hinv.deletedNodup, hcur_nd]
  refine ⟨hcur_dl, hcur_nd, hchildren, hnd2, ?_, ?_, ?_⟩
  · intro i hi
    rcases List.mem_append.mp hi with h | h
    · exact hinv.deletedDeletable i h
    · have : i = cur := by simpa using h
      rw [this]; exact hcur_dl
  · intro i hi
    rcases List.mem_append.mp hi with h | h
    · exact List.mem_append_left _ (hinv.deletedDone i h)
    · exact List.mem_append_right _ h
  · intro pr hpr c hc hcd
    rcases List.mem_append.mp hpr with h | h
    · obtain ⟨hcmem, hlt⟩ := hinv.ordOK pr h c hc hcd
      refine ⟨List.mem_append_left _ hcmem, ?_⟩
      rw [List.indexOf_append_of_mem hcmem, List.indexOf_append_of_mem h]
      exact hlt
    · have hpc : pr = cur := by simpa using h
      subst hpc
      have hcmem : c ∈ st.deleted := hchildren c hc hcd
      refine ⟨List.mem_append_left _ hcmem, ?_⟩
      rw [List.indexOf_append_of_mem hcmem,
          List.indexOf_append_of_not_mem hcur_nd, List.indexOf_cons_self]
      have := List.indexOf_lt_length.mpr hcmem
      omega

theorem leftOf_unaffected {parties : List Party} {dIds : List String}
    (hnd : (parties.map Party.id).Nodup) {party : Party} (hp : party ∈ parties)
    {cur : String} (hpid : party.id = cur) {pid : String}
    (hne : ¬(truthyOrg party.orgId = true ∧ party.orgId.getD "" = pid))
    (deleted : List String) :
    leftOf parties dIds (deleted ++ [cur]) pid = leftOf parties dIds deleted pid := by
  rw [leftOf_append]
  unfold leftOf
  apply List.filter_congr
  intro c hc
  by_cases hcc : c = cur
  · exfalso
    apply hne
    apply childIds_unique_parent hnd hp
    rw [hpid, ← hcc]
    exact hc
  · have : (c == cur) = false := by simpa using hcc
    simp [this]

theorem delete_plain_inv {parties : List Party} {dIds : List String}
    (hnd : (parties.map Party.id).Nodup) {st : ResetState}
    (hinv : ResetInv parties dIds st) {cur : String} {restQ : List String}
    (hstack : st.stack = cur :: restQ) (hproc : cur ∉ st.processed)
    {party : Party} (hp : party ∈ parties) (hpid : party.id = cur)
    (hno : ∀ pid ∈ dIds, ¬(truthyOrg party.orgId = true ∧ party.orgId.getD "" = pid)) :
    ResetInv parties dIds
      ⟨restQ, st.processed ++ [cur], st.deleted ++ [party.id], st.counts⟩ := by
  rw [hpid]
  obtain ⟨hcur_dl, hcur_nd, hchildren, hndD, hdlD, hdoneD, hordD⟩ :=
    deletedFacts hinv hstack hproc
  refine ⟨hndD, hdoneD, hdlD, ?_, ?_, ?_, hordD⟩
  · intro i hi
    exact hinv.stackDeletable i (by rw [hstack]; exact List.mem_cons_of_mem _ hi)
  · intro i hi
    exact hinv.stackCountZero i (by rw [hstack]; exact List.mem_cons_of_mem _ hi)
  · intro pid hpm
    rw [leftOf_unaffected hnd hp hpid (hno pid hpm) st.deleted]
    exact hinv.countsCorrect pid hpm

theorem delete_parent_inv {parties : List Party} {dIds : List String}
    (hnd : (parties.map Party.id).Nodup) {st : ResetState}
    (hinv : ResetInv parties dIds st) {cur : String} {restQ : List String}
    (hstack : st.stack = cur :: restQ) (hproc : cur ∉ st.processed)
    {party : Party} (hp : party ∈ parties) (hpid : party.id = cur)
    {o : String} (ho : party.orgId = some o) :
    ResetInv parties dIds
      (if o != "" && dIds.contains o then
         (if (countGet st.counts o : Int) - 1 ≤ 0 then
            (⟨o :: restQ, st.processed ++ [cur], st.deleted ++ [party.id],
              countSet st.counts o
                (max ((countGet st.counts o : Int) - 1) 0).toNat⟩ : ResetState)
          else
            ⟨restQ, st.processed ++ [cur], st.deleted ++ [party.id],
              countSet st.counts o
                (max ((countGet st.counts o : Int) - 1) 0).toNat⟩)
       else ⟨restQ, st.processed ++ [cur], st.deleted ++ [party.id], st.counts⟩) := by
  by_cases hcond : (o != "" && dIds.contains o) = true
  · rw [if_pos hcond]
    have hotr : (o != "") = true := by
      rcases Bool.and_eq_true_iff.mp hcond with ⟨h1, _⟩
      exact h1
    have hodl : dIds.contains o = true := by
      rcases Bool.and_eq_true_iff.mp hcond with ⟨_, h2⟩
      exact h2
    have homem : o ∈ dIds := by simpa using hodl
    obtain ⟨hcur_dl, hcur_nd, hchildren, hndD, hdlD, hdoneD, hordD⟩ :=
      deletedFacts hinv hstack hproc
    have htr : truthyOrg party.orgId = true := by rw [ho]; simpa [truthyOrg] using hotr
    have hgd : party.orgId.getD "" = o := by rw [ho]; rfl
    have hcuro : cur ∈ childIds parties o := by
      rw [← hpid]; exact mem_childIds_intro hp htr hgd
    have hQ : (dIds.contains cur && !(st.deleted.contains cur)) = true := by
      simp [hcur_dl, hcur_nd]
    have hkey : (leftOf parties dIds (st.deleted ++ [cur]) o).length + 1
        = (leftOf parties dIds st.deleted o).length := by
      rw [leftOf_append]
      exact filterRemoveLen (childIds_nodup parties o) hcuro hQ
    have hcc : countGet st.counts o = (leftOf parties dIds st.deleted o).length :=
      hinv.countsCorrect o homem
    have hge1 : 1 ≤ countGet st.counts o := by omega
    have hv : (max ((countGet st.counts o : Int) - 1) 0).toNat
        = countGet st.counts o - 1 := by
      rw [max_eq_left (by omega : (0:Int) ≤ (countGet st.counts o : Int) - 1)]
      omega
    have hco : countGet (countSet st.counts o
        (max ((countGet st.counts o : Int) - 1) 0).toNat) o
        = countGet st.counts o - 1 := by
      rw [countGet_countSet_self, hv]
    have hcne : ∀ i, ¬(i = o) → countGet (countSet st.counts o
        (max ((countGet st.counts o : Int) - 1) 0).toNat) i = countGet st.counts i := by
      intro i hi
      exact countGet_countSet_ne _ _ _ _ (by simpa using hi)
    have hcountsC : ∀ pid ∈ dIds, countGet (countSet st.counts o
        (max ((countGet st.counts o : Int) - 1) 0).toNat) pid
        = (leftOf parties dIds (st.deleted ++ [cur]) pid).length := by
      intro pid hpm
      by_cases hpo : pid = o
      · subst hpo
        rw [hco]
        omega
      · rw [hcne pid hpo,
            leftOf_unaffected hnd hp hpid (fun hcontra => hpo (by
              rw [← hcontra.2, hgd])) st.deleted]
        exact hinv.countsCorrect pid hpm
    rw [hpid]
    by_cases hle : (countGet st.counts o : Int) - 1 ≤ 0
    · rw [if_pos hle]
      refine ⟨hndD, hdoneD, hdlD, ?_, ?_, hcountsC, hordD⟩
      · intro i hi
        rcases List.mem_cons.mp hi with h | h
        · rw [h]; exact homem
        · exact hinv.stackDeletable i (by rw [hstack]; exact List.mem_cons_of_mem _ h)
      · intro i hi
        have hzo : countGet (countSet st.counts o
            (max ((countGet st.counts o : Int) - 1) 0).toNat) o = 0 := by
          rw [hco]; omega
        rcases List.mem_cons.mp hi with h | h
        · rw [h]; exact hzo
        · by_cases hio : i = o
          · rw [hio]; exact hzo
          · rw [hcne i hio]
            exact hinv.stackCountZero i (by rw [hstack]; exact List.mem_cons_of_mem _ h)
    · rw [if_neg hle]
      refine ⟨hndD, hdoneD, hdlD, ?_, ?_, hcountsC, hordD⟩
      · intro i hi
        exact hinv.stackDeletable i (by rw [hstack]; exact List.mem_cons_of_mem _ hi)
      · intro i hi
        by_cases hio : i = o
        · exfalso
          have h0 : countGet st.counts o = 0 := by
            rw [← hio]
            exact hinv.stackCountZero i (by rw [hstack]; exact List.mem_cons_of_mem _ hi)
          rw [h0] at hle
          exact hle (by omega)
        · rw [hcne i hio]
          exact hinv.stackCountZero i (by rw [hstack]; exact List.mem_cons_of_mem _ hi)
  · rw [if_neg hcond]
    apply delete_plain_inv hnd hinv hstack hproc hp hpid
    intro pid hpm hcontra
    rw [ho] at hcontra
    have hgd : o = pid := by simpa using hcontra.2
    have htr : (o != "") = true := by simpa [truthyOrg] using hcontra.1
    have hcont : dIds.contains o = true := by
      rw [hgd]; simpa using hpm
    exact hcond (by rw [htr, hcont]; rfl)

theorem resetLoop_inv {parties : List Party} {dIds : List String}
    (hnd : (parties.map Party.id).Nodup) :
    ∀ (fuel : Nat) (st : ResetState), ResetInv parties dIds st →
      ResetInv parties dIds (resetLoop parties dIds fuel st) := by
  intro fuel
  induction fuel with
  | zero => intro st hinv; exact hinv
  | succ fuel ih =>
    intro st hinv
    rw [resetLoop]
    split
    · exact hinv
    · rename_i cur restQ heq
      split
      · exact ih _ (skip_inv hinv heq)
      · rename_i hproc
        have hproc2 : cur ∉ st.processed := by simpa using hproc
        cases hfind : partyById parties cur with
        | none => exact ih _ (mark_inv hinv heq)
        | some party =>
          simp only []
          obtain ⟨hp, hpid⟩ := partyById_spec hfind
          cases ho : party.orgId with
          | none =>
            apply ih
            apply delete_plain_inv hnd hinv heq hproc2 hp hpid
            intro pid hpm hcontra
            rw [ho] at hcontra
            simp [truthyOrg] at hcontra
          | some o =>
            apply ih
            exact delete_parent_inv hnd hinv heq hproc2 hp hpid ho

theorem countGet_map_pairs (l : List Party) (g : Party → Nat) (pid : String) :
    countGet (l.map (fun p => (p.id, g p))) pid
      = ((l.find? (fun p => p.id == pid)).map g).getD 0 := by
  unfold countGet
  rw [List.find?_map]
  have hcomp : ((fun q : String × Nat => q.1 == pid) ∘ (fun p : Party => (p.id, g p)))
      = (fun p : Party => p.id == pid) := rfl
  rw [hcomp]
  cases l.find? (fun p => p.id == pid) <;> rfl

theorem initResetState_inv (removeRoots : Bool) (parties : List Party) :
    ResetInv parties ((removableParties removeRoots parties).map Party.id)
      (initResetState removeRoots parties) := by
  unfold initResetState
  simp only []
  constructor
  · exact List.nodup_nil
  · intro i hi; exact absurd hi (List.not_mem_nil i)
  · intro i hi; exact absurd hi (List.not_mem_nil i)
  · intro i hi
    rw [List.mem_reverse] at hi
    obtain ⟨p, hpf, hid⟩ := List.mem_map.mp hi
    rw [← hid]
    exact List.mem_map_of_mem _ (List.mem_filter.mp hpf).1
  · intro i hi
    rw [List.mem_reverse] at hi
    obtain ⟨p, hpf, hid⟩ := List.mem_map.mp hi
    rw [← hid]
    exact of_decide_eq_true (List.mem_filter.mp hpf).2
  · intro pid hpm
    rw [countGet_map_pairs]
    obtain ⟨p0, hp0, hid⟩ := List.mem_map.mp hpm
    have hfs : ((removableParties removeRoots parties).find?
        (fun p => p.id == pid)).isSome = true := by
      apply List.find?_isSome.mpr
      exact ⟨p0, hp0, by simp [hid]⟩
    obtain ⟨p1, hp1⟩ := Option.isSome_iff_exists.mp hfs
    rw [hp1]
    simp only [Option.map_some', Option.getD_some]
    have hp1id : p1.id = pid := by simpa using List.find?_some hp1
    unfold initCount leftOf
    rw [hp1id]
    congr 1
    apply List.filter_congr
    intro c _
    simp
  · intro pr hpr; exact absurd hpr (List.not_mem_nil pr)

/-- C10: deletion in `resetParties` is leaves-first: over any run (any fuel),
assuming distinct party ids, the trace of deleted parties has no repeats, every
deleted party belongs to the deletable (removable) set, root organizations
(`orgId = null`) are excluded from that set unless `--remove-roots` is given,
and whenever a deletable parent is deleted, each of its deletable children was
deleted strictly earlier in the trace. -/
theorem c10_resetParties (removeRoots : Bool) (parties : List Party) (fuel : Nat)
    (hnd : (parties.map Party.id).Nodup) :
    (resetParties removeRoots parties fuel).deleted.Nodup
    ∧ (∀ i ∈ (resetParties removeRoots parties fuel).deleted,
        i ∈ (removableParties removeRoots parties).map Party.id)
    ∧ (removeRoots = false → ∀ p ∈ parties, p.orgId = none →
        ¬ p.id ∈ (removableParties removeRoots parties).map Party.id)
    ∧ (∀ parent ∈ parties, ∀ child ∈ parties,
        child.orgId = some parent.id → ¬ parent.id = "" →
        child.id ∈ (removableParties removeRoots parties).map Party.id →
        parent.id ∈ (resetParties removeRoots parties fuel).deleted →
        child.id ∈ (resetParties removeRoots parties fuel).deleted ∧
          List.indexOf child.id (resetParties removeRoots parties fuel).deleted
            < List.indexOf parent.id (resetParties removeRoots parties fuel).deleted) := by
  have hfin : ResetInv parties ((removableParties removeRoots parties).map Party.id)
      (resetParties removeRoots parties fuel) := by
    unfold resetParties
    simp only []
    by_cases h1 : parties.isEmpty = true
    · rw [if_pos h1]
      exact initResetState_inv removeRoots parties
    · rw [if_neg h1]
      by_cases h2 : (removableParties removeRoots parties).isEmpty = true
      · rw [if_pos h2]
        exact initResetState_inv removeRoots parties
      · rw [if_neg h2]
        exact resetLoop_inv hnd fuel _ (initResetState_inv removeRoots parties)
  refine ⟨hfin.deletedNodup, hfin.deletedDeletable, ?_, ?_⟩
  · intro hrr p hp hnone hmem
    obtain ⟨q, hq, hqid⟩ := List.mem_map.mp hmem
    unfold removableParties at hq
    obtain ⟨hqp, hqpred⟩ := List.mem_filter.mp hq
    have hq2 : q = p := party_id_unique hnd hqp hp hqid
    rw [hrr] at hqpred
    rw [hq2, hnone] at hqpred
    simp at hqpred
  · intro parent hparent child hchild hco hpne hcdl hpdel
    have hcc : child.id ∈ childIds parties parent.id := by
      apply mem_childIds_intro hchild
      · rw [hco]
        simpa [truthyOrg] using hpne
      · rw [hco]
        rfl
    exact hfin.ordOK parent.id hpdel child.id hcc hcdl

def c10parties : List Party :=
  [⟨"r", "R", "Root", none⟩,
   ⟨"a", "A", "Alpha", some "r"⟩,
   ⟨"b", "B", "Beta", some "a"⟩]

theorem c10_resetParties_witness :
    ((c10parties.map Party.id).Nodup) ∧
    ((resetParties false c10parties 9).deleted.Nodup
     ∧ (∀ i ∈ (resetParties false c10parties 9).deleted,
         i ∈ (removableParties false c10parties).map Party.id)
     ∧ (false = false → ∀ p ∈ c10parties, p.orgId = none →
         ¬ p.id ∈ (removableParties false c10parties).map Party.id)
     ∧ (∀ parent ∈ c10parties, ∀ child ∈ c10parties,
         child.orgId = some parent.id → ¬ parent.id = "" →
         child.id ∈ (removableParties false c10parties).map Party.id →
         parent.id ∈ (resetParties false c10parties 9).deleted →
         child.id ∈ (resetParties false c10parties 9).deleted ∧
           List.indexOf child.id (resetParties false c10parties 9).deleted
             < List.indexOf parent.id (resetParties false c10parties 9).deleted)) :=
  ⟨by decide, c10_resetParties false c10parties 9 (by decide)⟩

end VirtApis
